import Mathlib

/-!
# simple-nonblocking: ring buffer, socket compatibility layer, acceptor, workers and connector

A shallow embedding of `ring.h`, `net/net_compat.h`, `net/net_compat.c`,
`server.c` and `client.c`, followed by the properties established for them.

Conventions of the embedding

* A C `int` is an `Int`.  The cursors of a ring stay in `[0, 256)` in every
  state the claims talk about, so no arithmetic on them can overflow.
* The C operator `%` truncates towards zero; it is `Int.tmod`.
* `int data[BUFFER_LENGTH]` is a `List Int`; the C type fixes its length, which
  appears in statements as `rb.data.length = 256`.
* A C truth value used in `if (...)` is tested with `≠ 0`.
-/

/-! ## ring.h -/

/-- The macro `BUFFER_LENGTH` of `ring.h`. -/
def BUFFER_LENGTH : Int := 256

/-- The C `struct ring`: two cursors and the array of slots. -/
structure ring where
  head : Int
  tail : Int
  data : List Int
deriving DecidableEq, Repr

/-- The C read `a[i]`.  An index outside the array is undefined behaviour in C;
the embedding reads `0` there (no statement below depends on it). -/
def arr_get (a : List Int) (i : Int) : Int :=
  if 0 ≤ i then a.getD i.toNat 0 else 0

/-- The C write `a[i] = v`.  An index outside the array is undefined behaviour
in C; the embedding leaves the array unchanged there. -/
def arr_set (a : List Int) (i : Int) (v : Int) : List Int :=
  if 0 ≤ i then a.set i.toNat v else a

/-- The function `rb_create`: `block` is the result of `malloc`, `none` when the
allocation failed and otherwise the (uninitialised) contents of the array.
Only the two cursors are initialised. -/
def rb_create (block : Option (List Int)) : Option ring :=
  match block with
  | none => none
  | some cells => some { head := 0, tail := 1, data := cells }

/-- The function `rb_isempty`: `-1` if empty and `0` if not. -/
def rb_isempty (rb : ring) : Int :=
  if rb.tail = (rb.head + 1).tmod BUFFER_LENGTH then -1 else 0

/-- The function `rb_isfull`: `-1` if full and `0` if not. -/
def rb_isfull (rb : ring) : Int :=
  if rb.tail = rb.head then -1 else 0

/-- The index written by `rb_enqueue`: `(rb->tail - 1 + BUFFER_LENGTH) % BUFFER_LENGTH`. -/
def rb_enqueue_index (rb : ring) : Int :=
  (rb.tail - 1 + BUFFER_LENGTH).tmod BUFFER_LENGTH

/-- The function `rb_enqueue`: the returned `int` and the ring after the call. -/
def rb_enqueue (rb : ring) (value : Int) : Int × ring :=
  if rb_isfull rb ≠ 0 then
    (0, rb)
  else
    (-1, { head := rb.head,
           tail := (rb.tail + 1).tmod BUFFER_LENGTH,
           data := arr_set rb.data (rb_enqueue_index rb) value })

/-- The function `rb_dequeue`: the returned `int` and the ring after the call. -/
def rb_dequeue (rb : ring) : Int × ring :=
  if rb_isempty rb ≠ 0 then
    (-1, rb)
  else
    (arr_get rb.data rb.head,
     { head := (rb.head + 1).tmod BUFFER_LENGTH, tail := rb.tail, data := rb.data })

/-! ### Sequences of calls on one ring -/

/-- One call made on a ring by a client of `ring.h`. -/
inductive Call where
  | enqueue (value : Int)
  | dequeue
deriving DecidableEq, Repr

/-- The record of one executed call: the ring before it, the value returned and
the ring after it. -/
structure Step where
  call : Call
  before : ring
  ret : Int
  after : ring
deriving DecidableEq, Repr

/-- Execute one call. -/
def rb_call (rb : ring) (c : Call) : Int × ring :=
  match c with
  | Call.enqueue v => rb_enqueue rb v
  | Call.dequeue => rb_dequeue rb

/-- Execute a sequence of calls, recording every step. -/
def rb_trace (rb : ring) : List Call → List Step
  | [] => []
  | c :: cs =>
    { call := c, before := rb, ret := (rb_call rb c).1, after := (rb_call rb c).2 }
      :: rb_trace (rb_call rb c).2 cs

/-- The ring after a sequence of calls. -/
def rb_run (rb : ring) : List Call → ring
  | [] => rb
  | c :: cs => rb_run (rb_call rb c).2 cs

/-- The values of the successful `rb_enqueue` calls (those that returned `-1`),
in call order. -/
def enqueued : List Step → List Int
  | [] => []
  | s :: ss =>
    match s.call with
    | Call.enqueue v => if s.ret = -1 then v :: enqueued ss else enqueued ss
    | Call.dequeue => enqueued ss

/-- The values returned by the successful `rb_dequeue` calls (those that did
not return the empty code `-1`), in call order. -/
def dequeued : List Step → List Int
  | [] => []
  | s :: ss =>
    match s.call with
    | Call.enqueue _ => dequeued ss
    | Call.dequeue => if s.ret ≠ -1 then s.ret :: dequeued ss else dequeued ss

/-- The number of `rb_dequeue` calls that removed a value, that is, that were
made on a ring `rb_isempty` did not report empty. -/
def removals : List Step → Nat
  | [] => 0
  | s :: ss =>
    match s.call with
    | Call.enqueue _ => removals ss
    | Call.dequeue => if rb_isempty s.before = 0 then removals ss + 1 else removals ss

/-- The occupancy `count := (tail - head - 1) mod 256`. -/
def rb_count (rb : ring) : Int :=
  (rb.tail - rb.head - 1) % BUFFER_LENGTH

/-- The usable capacity, `BUFFER_LENGTH - 1`. -/
def rb_capacity : Int := BUFFER_LENGTH - 1

/-- The values stored in the ring, oldest first: the `rb_count` slots starting
at `head`. -/
def rb_contents (rb : ring) : List Int :=
  (List.range (rb_count rb).toNat).map
    (fun (k : Nat) => arr_get rb.data ((rb.head + (k : Int)) % BUFFER_LENGTH))

/-- Both cursors are indices of the array. -/
def rb_inrange (rb : ring) : Prop :=
  0 ≤ rb.head ∧ rb.head < BUFFER_LENGTH ∧ 0 ≤ rb.tail ∧ rb.tail < BUFFER_LENGTH

instance (rb : ring) : Decidable (rb_inrange rb) := by
  unfold rb_inrange; infer_instance

/-! ## server.c: the acceptor's push -/

/-- The push of `_server_tcp_loop`, executed with the mutex held:
`while (rb_enqueue(s_vars->rb, client_fd) != -1) pthread_cond_wait(not_full, mutex_sum);`.
While the thread waits the mutex is released, so the ring it finds when
`pthread_cond_wait` returns is decided by the other threads: `wakes` lists the
ring found at each successive wake-up.  The result is the ring after the
successful `rb_enqueue` and the number of waits performed, or `none` when the
thread is still waiting after the last listed wake-up. -/
def push_loop (rb : ring) (client_fd : Int) : List ring → Option (ring × Nat)
  | [] =>
    if (rb_enqueue rb client_fd).1 ≠ -1 then none
    else some ((rb_enqueue rb client_fd).2, 0)
  | w :: ws =>
    if (rb_enqueue rb client_fd).1 ≠ -1 then
      (push_loop w client_fd ws).map (fun r => (r.1, r.2 + 1))
    else some ((rb_enqueue rb client_fd).2, 0)

/-! ## net/net_compat.h: the Unix macro table -/

/-- The values of the `<errno.h>` constants named by the sources.  The header
belongs to the platform, not to the repository, so the table is a parameter. -/
structure Errno where
  EAGAIN : Int
  EWOULDBLOCK : Int
  ECONNABORTED : Int
  EMFILE : Int
  ENFILE : Int
  ENOBUFS : Int
  ENOMEM : Int
  EADDRINUSE : Int
  EINPROGRESS : Int
  EINTR : Int
  EINVAL : Int
  ENOSYS : Int
deriving DecidableEq, Repr

/-- The table of Linux (asm-generic/errno.h), used for concrete evaluations. -/
def linux_errno : Errno :=
  { EAGAIN := 11, EWOULDBLOCK := 11, ECONNABORTED := 103, EMFILE := 24, ENFILE := 23,
    ENOBUFS := 105, ENOMEM := 12, EADDRINUSE := 98, EINPROGRESS := 115, EINTR := 4,
    EINVAL := 22, ENOSYS := 38 }

/-- The macro `NET_SOCKET_OK(s)`, `((s) >= 0)`. -/
def NET_SOCKET_OK (s : Int) : Bool := decide (s ≥ 0)

/-- The macro `NET_INVALID_SOCKET`, `(-1)`. -/
def NET_INVALID_SOCKET : Int := -1

/-- The macro `NET_SOCKET_ERRNO_IS_EAGAIN(e)`, with its `#if EAGAIN == EWOULDBLOCK`. -/
def NET_SOCKET_ERRNO_IS_EAGAIN (E : Errno) (e : Int) : Bool :=
  if E.EAGAIN = E.EWOULDBLOCK then
    (e == E.EAGAIN || false)
  else
    (e == E.EAGAIN || e == E.EWOULDBLOCK)

/-- The macro `NET_SOCKET_ERRNO_IS_EINTR(e)`. -/
def NET_SOCKET_ERRNO_IS_EINTR (E : Errno) (e : Int) : Bool :=
  (e == E.EINTR || false)

/-- The macro `NET_SOCKET_ERRNO_IS_EINPROGRESS(e)`. -/
def NET_SOCKET_ERRNO_IS_EINPROGRESS (E : Errno) (e : Int) : Bool :=
  (e == E.EINPROGRESS || false)

/-- The macro `NET_SOCKET_ERRNO_IS_CONN_EINPROGRESS(e)`. -/
def NET_SOCKET_ERRNO_IS_CONN_EINPROGRESS (E : Errno) (e : Int) : Bool :=
  (e == E.EINPROGRESS || false)

/-- The macro `NET_SOCKET_ERRNO_IS_ACCEPT_EAGAIN(e)`. -/
def NET_SOCKET_ERRNO_IS_ACCEPT_EAGAIN (E : Errno) (e : Int) : Bool :=
  (NET_SOCKET_ERRNO_IS_EAGAIN E e || e == E.ECONNABORTED)

/-- The macro `NET_SOCKET_ERRNO_IS_RESOURCE_LIMIT(e)`. -/
def NET_SOCKET_ERRNO_IS_RESOURCE_LIMIT (E : Errno) (e : Int) : Bool :=
  (e == E.EMFILE || e == E.ENFILE || e == E.ENOBUFS || e == E.ENOMEM)

/-- The macro `NET_SOCKET_ERRNO_IS_EADDRINUSE(e)`. -/
def NET_SOCKET_ERRNO_IS_EADDRINUSE (E : Errno) (e : Int) : Bool :=
  ((e == E.EADDRINUSE) || false)

/-! ## The operating system, as seen by net/net_compat.c

The system calls are not code of the repository.  Each call is given its
outcome by a script (what the call returns and what it leaves in `errno` when
it fails), and its effect on the descriptors is recorded in a `Kernel`. -/

/-- The outcome of one system call: the value it returns and the value it
stores in `errno` if that return value reports a failure. -/
structure Outcome where
  ret : Int
  err : Int
deriving DecidableEq, Repr

/-- What the process can observe of the kernel: `errno`, the descriptors
returned by successful `socket` / `accept` / `accept4` calls, the arguments of
the `close` calls (both in call order), and the descriptors whose
`O_NONBLOCK` status flag is set. -/
structure Kernel where
  errno : Int
  created : List Int
  closed : List Int
  nonblocking : List Int
deriving DecidableEq, Repr

/-- A kernel in which this process has created and closed nothing yet. -/
def Kernel.start (errno : Int) : Kernel :=
  { errno := errno, created := [], closed := [], nonblocking := [] }

/-- Either `socket(domain, type | ext_flags, protocol)`, `accept4(.., ext_flags)`
or `accept(..)`: a non-negative result is a new descriptor, recorded as
non-blocking when `SOCK_NONBLOCK` was among the flags passed (without the flag
its mode is the default of the platform, and it is not recorded as
non-blocking); a negative result is a failure and sets `errno`. -/
def sys_new_socket (k : Kernel) (sock_nonblock : Bool) (o : Outcome) : Int × Kernel :=
  if o.ret ≥ 0 then
    (o.ret, { k with created := k.created ++ [o.ret],
                     nonblocking := if sock_nonblock then o.ret :: k.nonblocking
                                    else k.nonblocking })
  else
    (o.ret, { k with errno := o.err })

/-- A call `fcntl(fd, F_SETFD, FD_CLOEXEC)` or `fcntl(fd, F_GETFL, 0)`: no effect
on the blocking mode; the result `-1` is a failure and sets `errno`. -/
def sys_fcntl (k : Kernel) (o : Outcome) : Int × Kernel :=
  if o.ret = -1 then (o.ret, { k with errno := o.err }) else (o.ret, k)

/-- The call `fcntl(fd, F_SETFL, flags)` where `flags` has the bit `O_NONBLOCK`
set (the only use in the sources, after `flags |= O_NONBLOCK`): unless it fails
with `-1`, `fd` is in non-blocking mode afterwards. -/
def sys_fcntl_setfl_nonblock (k : Kernel) (fd : Int) (o : Outcome) : Int × Kernel :=
  if o.ret = -1 then (o.ret, { k with errno := o.err })
  else (o.ret, { k with nonblocking := fd :: k.nonblocking })

/-- The call `close(fd)`: recorded; a non-zero result sets `errno`. -/
def sys_close (k : Kernel) (fd : Int) (o : Outcome) : Int × Kernel :=
  if o.ret ≠ 0 then (o.ret, { k with errno := o.err, closed := k.closed ++ [fd] })
  else (o.ret, { k with closed := k.closed ++ [fd] })

/-- A call `setsockopt`, `connect`, `bind` or `listen`: no descriptor is created
or closed; a negative result sets `errno`. -/
def sys_plain (k : Kernel) (o : Outcome) : Int × Kernel :=
  if o.ret < 0 then (o.ret, { k with errno := o.err }) else (o.ret, k)

/-- The compile-time configuration of the Unix build: whether `SOCK_CLOEXEC`
and `SOCK_NONBLOCK` are both defined, whether `FD_CLOEXEC` is defined and
whether `HAVE_ACCEPT4` is defined. -/
structure Build where
  sock_ext : Bool
  fd_cloexec : Bool
  have_accept4 : Bool
deriving DecidableEq, Repr

/-! ## net/net_compat.c (Unix branch) -/

/-- The function `net_close`: `0` on success and the socket error code on failure. -/
def net_close (k : Kernel) (sock_fd : Int) (close : Outcome) : Int × Kernel :=
  let r := sys_close k sock_fd close
  if r.1 ≠ 0 then (r.2.errno, r.2) else (r.1, r.2)

/-- The function `net_socket_make_reuseable_unix`: `0` on success, `-1` on failure. -/
def net_socket_make_reuseable_unix (k : Kernel) (setsockopt : Outcome) : Int × Kernel :=
  let r := sys_plain k setsockopt
  if r.1 = -1 then (-1, r.2) else (0, r.2)

/-- The function `_net_socket_set_nonblocking` (the branch without `_WIN32`):
`0` on success, `-1` on failure. -/
def _net_socket_set_nonblocking (k : Kernel) (sock : Int) (getfl setfl : Outcome) :
    Int × Kernel :=
  let flags := sys_fcntl k getfl
  if flags.1 = -1 then
    (-1, flags.2)
  else
    let r := sys_fcntl_setfl_nonblock flags.2 sock setfl
    if r.1 = -1 then (-1, r.2) else (0, r.2)

/-- The outcomes of the system calls `_net_socket` and `_net_accept` can make:
the call with the extension flags (`socket(type | ext_flags)` or `accept4`), the
plain call (`socket` or `accept`), the three `fcntl` calls and `close`. -/
structure OpenScript where
  ext : Outcome
  plain : Outcome
  setfd : Outcome
  getfl : Outcome
  setfl : Outcome
  close : Outcome
deriving DecidableEq, Repr

/-- The function `_net_socket(domain, type, protocol, cloexec, nonblock)`; the
first three arguments do not influence the control flow and are left out.
`os.ext` is the outcome of `socket(domain, type | ext_flags, protocol)` and
`os.plain` that of `socket(domain, type, protocol)`. -/
def _net_socket (b : Build) (E : Errno) (os : OpenScript) (k : Kernel)
    (cloexec nonblock : Int) : Int × Kernel :=
  let plain_path (k : Kernel) : Int × Kernel :=
    let s := sys_new_socket k false os.plain
    if !NET_SOCKET_OK s.1 then (s.1, s.2)
    else
      let set_mode (k : Kernel) : Int × Kernel :=
        if nonblock ≠ 0 then
          let r := _net_socket_set_nonblocking k s.1 os.getfl os.setfl
          if r.1 = -1 then (NET_INVALID_SOCKET, (net_close r.2 s.1 os.close).2)
          else (s.1, r.2)
        else (s.1, k)
      if b.fd_cloexec && decide (cloexec ≠ 0) then
        let r := sys_fcntl s.2 os.setfd
        if r.1 = -1 then (NET_INVALID_SOCKET, (net_close r.2 s.1 os.close).2)
        else set_mode r.2
      else set_mode s.2
  if b.sock_ext then
    let s := sys_new_socket k (decide (nonblock ≠ 0)) os.ext
    if NET_SOCKET_OK s.1 then (s.1, s.2)
    else if s.2.errno ≠ E.EINVAL then (s.1, s.2)
    else plain_path s.2
  else plain_path k

/-- The function `net_socket_nonblocking`. -/
def net_socket_nonblocking (b : Build) (E : Errno) (os : OpenScript) (k : Kernel) :
    Int × Kernel :=
  _net_socket b E os k 1 1

/-- The function `_net_accept(sock_fd, addr, len, cloexec, nonblock)`; the first
three arguments do not influence the control flow and are left out.  `os.ext`
is the outcome of `accept4(sock_fd, addr, len, ext_flags)` and `os.plain` that
of `accept(sock_fd, addr, len)`. -/
def _net_accept (b : Build) (E : Errno) (os : OpenScript) (k : Kernel)
    (cloexec nonblock : Int) : Int × Kernel :=
  let plain_path (k : Kernel) : Int × Kernel :=
    let c := sys_new_socket k false os.plain
    if !NET_SOCKET_OK c.1 then (c.1, c.2)
    else
      let set_mode (k : Kernel) : Int × Kernel :=
        if nonblock ≠ 0 then
          let r := _net_socket_set_nonblocking k c.1 os.getfl os.setfl
          if r.1 = -1 then (NET_INVALID_SOCKET, (net_close r.2 c.1 os.close).2)
          else (c.1, r.2)
        else (c.1, k)
      if b.fd_cloexec && decide (cloexec ≠ 0) then
        let r := sys_fcntl c.2 os.setfd
        if r.1 = -1 then (NET_INVALID_SOCKET, (net_close r.2 c.1 os.close).2)
        else set_mode r.2
      else set_mode c.2
  if b.have_accept4 && b.sock_ext then
    let c := sys_new_socket k (decide (nonblock ≠ 0)) os.ext
    if NET_SOCKET_OK c.1 then (c.1, c.2)
    else if c.2.errno ≠ E.EINVAL && c.2.errno ≠ E.ENOSYS then (c.1, c.2)
    else plain_path c.2
  else plain_path k

/-- The function `net_accept_nonblocking`. -/
def net_accept_nonblocking (b : Build) (E : Errno) (os : OpenScript) (k : Kernel) :
    Int × Kernel :=
  _net_accept b E os k 1 1

/-- Modelled from the spec: `net_socket_close`, called by `server.c` and
`client.c`, is declared and defined nowhere under `src/`.  The spec gives
`close(Descriptor) → Ok | Error`, one close of the descriptor with no
idempotency; it is taken to be `net_close`, the close wrapper of
`net/net_compat.c`. -/
def net_socket_close (k : Kernel) (sock_fd : Int) (close : Outcome) : Int × Kernel :=
  net_close k sock_fd close

/-! ## server.c: one pass of the accept loop (Unix branch) -/

/-- How one pass through the body of the `for(;;)` of `_server_tcp_loop` ends:
`next` when the loop goes on with the next pass (a `continue`, or the end of the
body), `leave` on `break`, `waiting` when the thread is still inside
`pthread_cond_wait` after the last scripted wake-up. -/
inductive Ctl where
  | next
  | leave
  | waiting
deriving DecidableEq, Repr

/-- The state the acceptor thread works on: the kernel, the shared ring as the
acceptor finds it when it takes the mutex, and the descriptors it has pushed. -/
structure Server where
  kernel : Kernel
  rb : ring
  pushed : List Int
deriving DecidableEq, Repr

/-- The outcomes met by one pass of the accept loop: those of the calls of
`net_accept_nonblocking`, of the `setsockopt` of the reuse hardening, of the
`close` that follows a failed hardening, and the rings found at the wake-ups
of the push. -/
structure PassScript where
  accept : OpenScript
  setsockopt : Outcome
  close : Outcome
  wakes : List ring
deriving DecidableEq, Repr

/-- The body of the `for(;;)` of `_server_tcp_loop`, lines 198-287, in the
branch without `_WIN32`.  `net_socket_errno(x)` is the macro `(errno)`. -/
def _server_tcp_loop_body (b : Build) (E : Errno) (os : PassScript) (st : Server) :
    Ctl × Server :=
  let a := net_accept_nonblocking b E os.accept st.kernel
  let client_fd := a.1
  if !NET_SOCKET_OK client_fd then
    let err := a.2.errno
    if NET_SOCKET_ERRNO_IS_ACCEPT_EAGAIN E err then
      (Ctl.next, { st with kernel := a.2 })
    else if NET_SOCKET_ERRNO_IS_RESOURCE_LIMIT E err then
      (Ctl.next, { st with kernel := a.2 })
    else
      (Ctl.leave, { st with kernel := a.2 })
  else
    let r := net_socket_make_reuseable_unix a.2 os.setsockopt
    if r.1 < 0 then
      (Ctl.next, { st with kernel := (net_socket_close r.2 client_fd os.close).2 })
    else
      match push_loop st.rb client_fd os.wakes with
      | none => (Ctl.waiting, { st with kernel := r.2 })
      | some done =>
        (Ctl.next, { kernel := r.2, rb := done.1, pushed := st.pushed ++ [client_fd] })

/-! ## client.c: the connector (Unix branch) -/

/-- The outcomes met by `_client_tcp_connect`: the value returned by
`getaddrinfo`, the calls of `net_socket_nonblocking`, the `setsockopt` of the
reuse hardening, `connect`, and the `close` that follows a failed `connect`. -/
structure ConnectScript where
  getaddrinfo : Int
  socket : OpenScript
  setsockopt : Outcome
  connect : Outcome
  close : Outcome
deriving DecidableEq, Repr

/-- The function `_client_tcp_connect`. -/
def _client_tcp_connect (b : Build) (E : Errno) (os : ConnectScript) (k : Kernel) :
    Int × Kernel :=
  if os.getaddrinfo ≠ 0 then
    (NET_INVALID_SOCKET, k)
  else
    let s := net_socket_nonblocking b E os.socket k
    let sock_fd := s.1
    if !NET_SOCKET_OK sock_fd then
      (NET_INVALID_SOCKET, s.2)
    else
      let r := net_socket_make_reuseable_unix s.2 os.setsockopt
      let c := sys_plain r.2 os.connect
      if c.1 < 0 then
        if !NET_SOCKET_ERRNO_IS_CONN_EINPROGRESS E c.2.errno then
          (NET_INVALID_SOCKET, (net_socket_close c.2 sock_fd os.close).2)
        else (sock_fd, c.2)
      else (sock_fd, c.2)

/-! ## server.c: socket setup (Unix branch) -/

/-- The outcomes met by `_server_tcp_init`: the value returned by `getaddrinfo`,
the calls of `net_socket_nonblocking`, the `setsockopt` of the reuse hardening,
`bind`, `listen`, and the `close` that follows a failed `bind` or `listen`. -/
structure InitScript where
  getaddrinfo : Int
  socket : OpenScript
  setsockopt : Outcome
  bind : Outcome
  listen : Outcome
  close : Outcome
deriving DecidableEq, Repr

/-- The function `_server_tcp_init`, in the branch without `_WIN32`. -/
def _server_tcp_init (b : Build) (E : Errno) (os : InitScript) (k : Kernel) :
    Int × Kernel :=
  if os.getaddrinfo ≠ 0 then
    (NET_INVALID_SOCKET, k)
  else
    let s := net_socket_nonblocking b E os.socket k
    let sock_fd := s.1
    if !NET_SOCKET_OK sock_fd then
      (NET_INVALID_SOCKET, s.2)
    else
      let r := net_socket_make_reuseable_unix s.2 os.setsockopt
      let bd := sys_plain r.2 os.bind
      if bd.1 < 0 then
        (NET_INVALID_SOCKET, (net_socket_close bd.2 sock_fd os.close).2)
      else
        let l := sys_plain bd.2 os.listen
        if l.1 < 0 then
          (NET_INVALID_SOCKET, (net_socket_close l.2 sock_fd os.close).2)
        else (sock_fd, l.2)

/-! ## server.c: the worker -/

/-- The pop of `_server_tcp_nonblocking_worker`, executed with the mutex held:
`client_fd = rb_dequeue(rb); while (client_fd == -1) { pthread_cond_wait(not_empty, mutex_sum); client_fd = rb_dequeue(rb); }`.
As for `push_loop`, `wakes` lists the ring found at each successive wake-up.
The result is the value obtained, the ring after the call that returned it and
the number of waits performed, or `none` when the thread is still waiting
after the last listed wake-up. -/
def pop_loop (rb : ring) : List ring → Option (Int × ring × Nat)
  | [] =>
    if (rb_dequeue rb).1 = -1 then none
    else some ((rb_dequeue rb).1, (rb_dequeue rb).2, 0)
  | w :: ws =>
    if (rb_dequeue rb).1 = -1 then
      (pop_loop w ws).map (fun r => (r.1, r.2.1, r.2.2 + 1))
    else some ((rb_dequeue rb).1, (rb_dequeue rb).2, 0)

/-- The state a worker thread works on: the kernel, the shared ring as the
worker finds it when it takes the mutex, and the descriptors it has obtained
from the ring. -/
structure Worker where
  kernel : Kernel
  rb : ring
  handled : List Int
deriving DecidableEq, Repr

/-- The outcomes met by one pass of the worker loop: the rings found at the
wake-ups of the pop and the outcome of `close`. -/
structure WorkerScript where
  wakes : List ring
  close : Outcome
deriving DecidableEq, Repr

/-- The body of the `for(;;)` of `_server_tcp_nonblocking_worker`: the pop, then
`close(client_fd)`.  The result is `none` when the thread is still inside
`pthread_cond_wait` after the last scripted wake-up. -/
def _server_tcp_nonblocking_worker_body (os : WorkerScript) (st : Worker) : Option Worker :=
  match pop_loop st.rb os.wakes with
  | none => none
  | some got =>
    some { kernel := (sys_close st.kernel got.1 os.close).2,
           rb := got.2.1,
           handled := st.handled ++ [got.1] }

/-- Successive passes of the worker loop: each pass starts on the ring the
worker finds when it takes the mutex and meets its own outcomes.  The result is
`none` when the thread is still waiting inside one of the passes. -/
def worker_run (st : Worker) : List (ring × WorkerScript) → Option Worker
  | [] => some st
  | p :: rest =>
    match _server_tcp_nonblocking_worker_body p.2 { st with rb := p.1 } with
    | none => none
    | some st' => worker_run st' rest

/-! ## The push as the spec words it -/

/-- The push of the spec, section 4.2 and design notes: "wait while full, then
insert", that is `while (rb_isfull(rb)) pthread_cond_wait(...); rb_enqueue(rb, fd);`,
over the same list of rings found at the wake-ups.  The result is the ring
after the insertion and the number of waits, or `none` when the thread is
still waiting after the last listed wake-up. -/
def std_push_loop (rb : ring) (client_fd : Int) : List ring → Option (ring × Nat)
  | [] =>
    if rb_isfull rb ≠ 0 then none
    else some ((rb_enqueue rb client_fd).2, 0)
  | w :: ws =>
    if rb_isfull rb ≠ 0 then
      (std_push_loop w client_fd ws).map (fun r => (r.1, r.2 + 1))
    else some ((rb_enqueue rb client_fd).2, 0)

/-! ## ring.h with the buffer length as a parameter -/

/-- The function `rb_isempty` with `BUFFER_LENGTH` replaced by `N`. -/
def rb_isempty_len (N : Int) (rb : ring) : Int :=
  if rb.tail = (rb.head + 1).tmod N then -1 else 0

/-- The function `rb_enqueue` with `BUFFER_LENGTH` replaced by `N`. -/
def rb_enqueue_len (N : Int) (rb : ring) (value : Int) : Int × ring :=
  if rb_isfull rb ≠ 0 then
    (0, rb)
  else
    (-1, { head := rb.head,
           tail := (rb.tail + 1).tmod N,
           data := arr_set rb.data ((rb.tail - 1 + N).tmod N) value })

/-- The function `rb_dequeue` with `BUFFER_LENGTH` replaced by `N`. -/
def rb_dequeue_len (N : Int) (rb : ring) : Int × ring :=
  if rb_isempty_len N rb ≠ 0 then
    (-1, rb)
  else
    (arr_get rb.data rb.head,
     { head := (rb.head + 1).tmod N, tail := rb.tail, data := rb.data })

/-- Execute a sequence of calls on a ring of buffer length `N`. -/
def rb_run_len (N : Int) (rb : ring) : List Call → ring
  | [] => rb
  | Call.enqueue v :: cs => rb_run_len N (rb_enqueue_len N rb v).2 cs
  | Call.dequeue :: cs => rb_run_len N (rb_dequeue_len N rb).2 cs

/-- Both cursors are indices of an array of `N` slots. -/
def rb_inrange_len (N : Int) (rb : ring) : Prop :=
  0 ≤ rb.head ∧ rb.head < N ∧ 0 ≤ rb.tail ∧ rb.tail < N

/-! ## Auxiliary definitions for the proofs -/

/-- The text of `_net_socket` and `_net_accept` from `if (nonblock)` on, for a
descriptor `s` obtained from the plain call. -/
def open_set_mode (os : OpenScript) (s : Int) (nonblock : Int) (k : Kernel) : Int × Kernel :=
  if nonblock ≠ 0 then
    let r := _net_socket_set_nonblocking k s os.getfl os.setfl
    if r.1 = -1 then (NET_INVALID_SOCKET, (net_close r.2 s os.close).2)
    else (s, r.2)
  else (s, k)

/-- The text of `_net_socket` and `_net_accept` from the plain call on. -/
def open_plain_path (b : Build) (os : OpenScript) (cloexec nonblock : Int) (k : Kernel) :
    Int × Kernel :=
  let s := sys_new_socket k false os.plain
  if !NET_SOCKET_OK s.1 then (s.1, s.2)
  else
    if b.fd_cloexec && decide (cloexec ≠ 0) then
      let r := sys_fcntl s.2 os.setfd
      if r.1 = -1 then (NET_INVALID_SOCKET, (net_close r.2 s.1 os.close).2)
      else open_set_mode os s.1 nonblock r.2
    else open_set_mode os s.1 nonblock s.2

/-- The descriptors created, closed and made non-blocking are the same in both kernels. -/
def SameSockets (k k' : Kernel) : Prop :=
  k'.created = k.created ∧ k'.closed = k.closed ∧ k'.nonblocking = k.nonblocking

/-- The three ways `net_socket_nonblocking` and `net_accept_nonblocking` can end,
in terms of the descriptors created, closed and made non-blocking. -/
def OpenResult (k : Kernel) (r : Int × Kernel) : Prop :=
  (0 ≤ r.1 ∧ r.2.created = k.created ++ [r.1] ∧ r.2.closed = k.closed ∧
      r.2.nonblocking = r.1 :: k.nonblocking) ∨
  (r.1 < 0 ∧ r.2.created = k.created ∧ r.2.closed = k.closed ∧
      r.2.nonblocking = k.nonblocking) ∨
  (r.1 = -1 ∧ ∃ s, 0 ≤ s ∧ r.2.created = k.created ++ [s] ∧ r.2.closed = k.closed ++ [s] ∧
      r.2.nonblocking = k.nonblocking)

/-! ## Properties of the ring -/

theorem tmod_buffer (a : Int) (h : 0 ≤ a) : a.tmod 256 = a % 256 :=
  Int.tmod_eq_emod h (by decide)

theorem rb_isempty_cases (rb : ring) : rb_isempty rb = -1 ∨ rb_isempty rb = 0 := by
  unfold rb_isempty; split <;> simp

theorem rb_isfull_cases (rb : ring) : rb_isfull rb = -1 ∨ rb_isfull rb = 0 := by
  unfold rb_isfull; split <;> simp

theorem rb_isfull_iff (rb : ring) : rb_isfull rb = -1 ↔ rb.tail = rb.head := by
  unfold rb_isfull; split <;> simp [*]

theorem rb_isfull_zero_iff (rb : ring) : rb_isfull rb = 0 ↔ rb.tail ≠ rb.head := by
  unfold rb_isfull; split <;> simp [*]

theorem rb_isempty_iff (rb : ring) :
    rb_isempty rb = -1 ↔ rb.tail = (rb.head + 1).tmod BUFFER_LENGTH := by
  unfold rb_isempty; split <;> simp [*]

theorem rb_isempty_zero_iff (rb : ring) :
    rb_isempty rb = 0 ↔ rb.tail ≠ (rb.head + 1).tmod BUFFER_LENGTH := by
  unfold rb_isempty; split <;> simp [*]

theorem rb_enqueue_of_full (rb : ring) (value : Int) (h : rb_isfull rb = -1) :
    rb_enqueue rb value = (0, rb) := by
  simp [rb_enqueue, h]

theorem rb_enqueue_of_not_full (rb : ring) (value : Int) (h : rb_isfull rb = 0) :
    rb_enqueue rb value =
      (-1, { head := rb.head, tail := (rb.tail + 1).tmod BUFFER_LENGTH,
             data := arr_set rb.data (rb_enqueue_index rb) value }) := by
  simp [rb_enqueue, h]

theorem rb_enqueue_ret_cases (rb : ring) (value : Int) :
    ((rb_enqueue rb value).1 = 0 ∧ rb_isfull rb = -1) ∨
      ((rb_enqueue rb value).1 = -1 ∧ rb_isfull rb = 0) := by
  rcases rb_isfull_cases rb with h | h
  · left; simp [rb_enqueue_of_full rb value h, h]
  · right; simp [rb_enqueue_of_not_full rb value h, h]

theorem rb_dequeue_of_empty (rb : ring) (h : rb_isempty rb = -1) :
    rb_dequeue rb = (-1, rb) := by
  simp [rb_dequeue, h]

theorem rb_dequeue_of_not_empty (rb : ring) (h : rb_isempty rb = 0) :
    rb_dequeue rb =
      (arr_get rb.data rb.head,
       { head := (rb.head + 1).tmod BUFFER_LENGTH, tail := rb.tail, data := rb.data }) := by
  simp [rb_dequeue, h]

theorem push_loop_done (fd : Int) (wakes : List ring) :
    ∀ (rb rb' : ring) (n : Nat), push_loop rb fd wakes = some (rb', n) →
      ∃ s, (rb :: wakes)[n]? = some s ∧ rb_isfull s = 0 ∧ rb_enqueue s fd = (-1, rb') := by
  induction wakes with
  | nil =>
    intro rb rb' n h
    rcases rb_enqueue_ret_cases rb fd with ⟨h1, _⟩ | ⟨h1, h2⟩
    · simp [push_loop, h1] at h
    · simp [push_loop, h1] at h
      obtain ⟨e1, e2⟩ := h
      subst e2
      exact ⟨rb, by simp, h2, by rw [← e1, ← h1]⟩
  | cons w ws ih =>
    intro rb rb' n h
    rcases rb_enqueue_ret_cases rb fd with ⟨h1, _⟩ | ⟨h1, h2⟩
    · simp [push_loop, h1] at h
      obtain ⟨r, m, hr, e1, e2⟩ := h
      subst e1 e2
      obtain ⟨s, hs, hrest⟩ := ih w r m hr
      exact ⟨s, by simpa using hs, hrest⟩
    · simp [push_loop, h1] at h
      obtain ⟨e1, e2⟩ := h
      subst e2
      exact ⟨rb, by simp, h2, by rw [← e1, ← h1]⟩

theorem arr_set_length (a : List Int) (i v : Int) : (arr_set a i v).length = a.length := by
  unfold arr_set; split <;> simp

theorem arr_get_set_same (a : List Int) (i v : Int) (h0 : 0 ≤ i) (h1 : i < a.length) :
    arr_get (arr_set a i v) i = v := by
  have h2 : i.toNat < a.length := by omega
  simp [arr_get, arr_set, h0, List.getD_eq_getElem?_getD, List.getElem?_set, h2]

theorem arr_get_set_other (a : List Int) (i j v : Int) (h0 : 0 ≤ i) (hj : 0 ≤ j)
    (hne : j ≠ i) : arr_get (arr_set a i v) j = arr_get a j := by
  have h2 : i.toNat ≠ j.toNat := by omega
  simp [arr_get, arr_set, h0, hj, List.getD_eq_getElem?_getD, List.getElem?_set, h2]

theorem rb_inrange_call (rb : ring) (c : Call) (h : rb_inrange rb) :
    rb_inrange (rb_call rb c).2 := by
  obtain ⟨h1, h2, h3, h4⟩ := h
  simp only [BUFFER_LENGTH] at h2 h4
  cases c with
  | enqueue v =>
    rcases rb_isfull_cases rb with hf | hf
    · simp only [rb_call, rb_enqueue_of_full rb v hf]
      exact ⟨h1, h2, h3, h4⟩
    · simp only [rb_call, rb_enqueue_of_not_full rb v hf, rb_inrange, BUFFER_LENGTH]
      rw [tmod_buffer _ (by omega)]
      omega
  | dequeue =>
    rcases rb_isempty_cases rb with he | he
    · simp only [rb_call, rb_dequeue_of_empty rb he]
      exact ⟨h1, h2, h3, h4⟩
    · simp only [rb_call, rb_dequeue_of_not_empty rb he, rb_inrange, BUFFER_LENGTH]
      rw [tmod_buffer _ (by omega)]
      omega

theorem rb_inrange_run (calls : List Call) :
    ∀ rb : ring, rb_inrange rb → rb_inrange (rb_run rb calls) := by
  induction calls with
  | nil => intro rb h; exact h
  | cons c cs ih => intro rb h; exact ih _ (rb_inrange_call rb c h)

theorem rb_length_call (rb : ring) (c : Call) :
    (rb_call rb c).2.data.length = rb.data.length := by
  cases c with
  | enqueue v =>
    rcases rb_isfull_cases rb with hf | hf
    · simp only [rb_call, rb_enqueue_of_full rb v hf]
    · simp only [rb_call, rb_enqueue_of_not_full rb v hf, arr_set_length]
  | dequeue =>
    rcases rb_isempty_cases rb with he | he
    · simp only [rb_call, rb_dequeue_of_empty rb he]
    · simp only [rb_call, rb_dequeue_of_not_empty rb he]

theorem rb_count_enqueue (rb : ring) (v : Int) (h : rb_inrange rb) (hf : rb_isfull rb = 0) :
    rb_count (rb_enqueue rb v).2 = rb_count rb + 1 := by
  obtain ⟨h1, h2, h3, h4⟩ := h
  simp only [BUFFER_LENGTH] at h2 h4
  have hne := (rb_isfull_zero_iff rb).1 hf
  simp only [rb_enqueue_of_not_full rb v hf, rb_count, BUFFER_LENGTH]
  rw [tmod_buffer _ (by omega)]
  omega

theorem rb_count_dequeue (rb : ring) (h : rb_inrange rb) (he : rb_isempty rb = 0) :
    rb_count (rb_dequeue rb).2 = rb_count rb - 1 := by
  obtain ⟨h1, h2, h3, h4⟩ := h
  simp only [BUFFER_LENGTH] at h2 h4
  have hne := (rb_isempty_zero_iff rb).1 he
  simp only [BUFFER_LENGTH] at hne
  rw [tmod_buffer _ (by omega)] at hne
  simp only [rb_dequeue_of_not_empty rb he, rb_count, BUFFER_LENGTH]
  rw [tmod_buffer _ (by omega)]
  omega

theorem rb_count_range (rb : ring) : 0 ≤ rb_count rb ∧ rb_count rb ≤ rb_capacity := by
  simp only [rb_count, rb_capacity, BUFFER_LENGTH]
  omega

theorem rb_isempty_count (rb : ring) (h : rb_inrange rb) :
    rb_isempty rb = -1 ↔ rb_count rb = 0 := by
  obtain ⟨h1, h2, h3, h4⟩ := h
  simp only [BUFFER_LENGTH] at h2 h4
  rw [rb_isempty_iff]
  simp only [rb_count, BUFFER_LENGTH]
  rw [tmod_buffer _ (by omega)]
  omega

theorem rb_isfull_count (rb : ring) (h : rb_inrange rb) :
    rb_isfull rb = -1 ↔ rb_count rb = rb_capacity := by
  obtain ⟨h1, h2, h3, h4⟩ := h
  simp only [BUFFER_LENGTH] at h2 h4
  rw [rb_isfull_iff]
  simp only [rb_count, rb_capacity, BUFFER_LENGTH]
  omega

theorem rb_create_inrange (block : Option (List Int)) (rb : ring)
    (h : rb_create block = some rb) : rb_inrange rb ∧ rb_count rb = 0 := by
  cases block with
  | none => simp [rb_create] at h
  | some cells =>
    simp only [rb_create, Option.some.injEq] at h
    subst h
    simp [rb_inrange, rb_count, BUFFER_LENGTH]

theorem rb_count_run (calls : List Call) :
    ∀ rb : ring, rb_inrange rb →
      rb_count (rb_run rb calls) + removals (rb_trace rb calls)
        = rb_count rb + (enqueued (rb_trace rb calls)).length := by
  induction calls with
  | nil => intro rb _; simp [rb_run, rb_trace, removals, enqueued]
  | cons c cs ih =>
    intro rb h
    have ih1 := ih _ (rb_inrange_call rb c h)
    cases c with
    | enqueue v =>
      rcases rb_isfull_cases rb with hf | hf
      · simp only [rb_call, rb_enqueue_of_full rb v hf] at ih1
        simp [rb_run, rb_trace, removals, enqueued, rb_call, rb_enqueue_of_full rb v hf]
        omega
      · have hc := rb_count_enqueue rb v h hf
        simp only [rb_call] at ih1
        simp only [rb_run, rb_trace, removals, enqueued, rb_call]
        simp only [rb_enqueue_of_not_full rb v hf] at ih1 hc ⊢
        simp
        omega
    | dequeue =>
      rcases rb_isempty_cases rb with he | he
      · simp only [rb_call, rb_dequeue_of_empty rb he] at ih1
        simp [rb_run, rb_trace, removals, enqueued, rb_call, rb_dequeue_of_empty rb he, he]
        omega
      · have hc := rb_count_dequeue rb h he
        simp only [rb_call] at ih1
        simp only [rb_run, rb_trace, removals, enqueued, rb_call]
        simp only [rb_dequeue_of_not_empty rb he] at ih1 hc ⊢
        simp [he]
        omega

theorem rb_contents_enqueue (rb : ring) (v : Int) (h : rb_inrange rb)
    (hlen : rb.data.length = 256) (hf : rb_isfull rb = 0) :
    rb_contents (rb_enqueue rb v).2 = rb_contents rb ++ [v] := by
  have hc := rb_count_enqueue rb v h hf
  have hr := rb_count_range rb
  obtain ⟨h1, h2, h3, h4⟩ := h
  simp only [BUFFER_LENGTH] at h2 h4
  have hne := (rb_isfull_zero_iff rb).1 hf
  have hn : (rb_count (rb_enqueue rb v).2).toNat = (rb_count rb).toNat + 1 := by omega
  have hidx : rb_enqueue_index rb = (rb.tail - 1 + 256) % 256 := by
    simp only [rb_enqueue_index, BUFFER_LENGTH]
    exact tmod_buffer _ (by omega)
  unfold rb_contents
  rw [hn, List.range_succ, List.map_append]
  simp only [rb_enqueue_of_not_full rb v hf, BUFFER_LENGTH, List.map_cons, List.map_nil]
  congr 1
  · apply List.map_congr_left
    intro k hk
    have hk' : (k : Int) < rb_count rb := by
      have := List.mem_range.1 hk
      omega
    simp only [rb_count, BUFFER_LENGTH] at hk'
    apply arr_get_set_other
    · rw [hidx]; omega
    · omega
    · rw [hidx]; omega
  · have hk' : ((rb_count rb).toNat : Int) = rb_count rb := by omega
    simp only [rb_count, BUFFER_LENGTH] at hk'
    have he : (rb.head + ((((rb.tail - rb.head - 1) % 256).toNat : Nat) : Int)) % 256
        = rb_enqueue_index rb := by
      rw [hidx]; omega
    simp only [rb_count, BUFFER_LENGTH]
    rw [he]
    rw [arr_get_set_same]
    · rw [hidx]; omega
    · rw [hidx]; omega

theorem rb_contents_dequeue (rb : ring) (h : rb_inrange rb) (he : rb_isempty rb = 0) :
    rb_contents rb = (rb_dequeue rb).1 :: rb_contents (rb_dequeue rb).2 := by
  have hc := rb_count_dequeue rb h he
  have hr := rb_count_range (rb_dequeue rb).2
  obtain ⟨h1, h2, h3, h4⟩ := h
  simp only [BUFFER_LENGTH] at h2 h4
  have hn : (rb_count rb).toNat = (rb_count (rb_dequeue rb).2).toNat + 1 := by omega
  unfold rb_contents
  rw [hn, List.range_succ_eq_map, List.map_cons, List.map_map]
  simp only [rb_dequeue_of_not_empty rb he, BUFFER_LENGTH]
  congr 1
  · have : (rb.head + ((0 : Nat) : Int)) % 256 = rb.head := by omega
    rw [this]
  · apply List.map_congr_left
    intro k _
    have : (rb.head + ((Nat.succ k : Nat) : Int)) % 256
        = ((rb.head + 1).tmod 256 + (k : Int)) % 256 := by
      rw [tmod_buffer _ (by omega)]
      push_cast
      omega
    simp only [Function.comp]
    rw [this]

theorem rb_contents_create (block : Option (List Int)) (rb : ring)
    (h : rb_create block = some rb) : rb_contents rb = [] := by
  have hc := (rb_create_inrange block rb h).2
  simp [rb_contents, hc]

theorem rb_fifo_run (calls : List Call) :
    ∀ rb : ring, rb_inrange rb → rb.data.length = 256 →
      (∀ x ∈ rb_contents rb, x ≠ -1) → (∀ v, Call.enqueue v ∈ calls → v ≠ -1) →
      dequeued (rb_trace rb calls) ++ rb_contents (rb_run rb calls)
        = rb_contents rb ++ enqueued (rb_trace rb calls) := by
  induction calls with
  | nil => intro rb _ _ _ _; simp [rb_run, rb_trace, dequeued, enqueued]
  | cons c cs ih =>
    intro rb h hlen hstored hval
    have hval' : ∀ v, Call.enqueue v ∈ cs → v ≠ -1 :=
      fun v hv => hval v (List.mem_cons_of_mem _ hv)
    have ih1 := ih _ (rb_inrange_call rb c h) ((rb_length_call rb c).trans hlen)
    cases c with
    | enqueue v =>
      rcases rb_isfull_cases rb with hf | hf
      · simp only [rb_call, rb_enqueue_of_full rb v hf] at ih1
        have ih2 := ih1 hstored hval'
        simp only [rb_run, rb_trace, dequeued, enqueued, rb_call, rb_enqueue_of_full rb v hf]
        simpa using ih2
      · have hcont := rb_contents_enqueue rb v h hlen hf
        have hv : v ≠ -1 := hval v (List.mem_cons_self _ _)
        simp only [rb_call] at ih1
        have ih2 := ih1 (by
          rw [hcont]
          intro x hx
          rcases List.mem_append.1 hx with hx | hx
          · exact hstored x hx
          · simp only [List.mem_singleton] at hx
            rw [hx]; exact hv) hval'
        rw [hcont] at ih2
        simp only [rb_run, rb_trace, dequeued, enqueued, rb_call]
        rw [ih2]
        simp [rb_enqueue_of_not_full rb v hf]
    | dequeue =>
      rcases rb_isempty_cases rb with he | he
      · simp only [rb_call, rb_dequeue_of_empty rb he] at ih1
        have ih2 := ih1 hstored hval'
        simp only [rb_run, rb_trace, dequeued, enqueued, rb_call, rb_dequeue_of_empty rb he]
        simpa using ih2
      · have hcont := rb_contents_dequeue rb h he
        have hx : (rb_dequeue rb).1 ≠ -1 := hstored _ (by rw [hcont]; exact List.mem_cons_self _ _)
        simp only [rb_call] at ih1
        have ih2 := ih1 (fun x hx' => hstored x (by
          rw [hcont]; exact List.mem_cons_of_mem _ hx')) hval'
        simp only [rb_run, rb_trace, dequeued, enqueued, rb_call]
        rw [hcont]
        simp only [hx, ne_eq, not_false_eq_true, if_true, List.cons_append, ih2]

theorem rb_removals_run (calls : List Call) :
    ∀ rb : ring, rb_inrange rb → rb.data.length = 256 →
      (∀ x ∈ rb_contents rb, x ≠ -1) → (∀ v, Call.enqueue v ∈ calls → v ≠ -1) →
      removals (rb_trace rb calls) = (dequeued (rb_trace rb calls)).length := by
  induction calls with
  | nil => intro rb _ _ _ _; simp [rb_trace, removals, dequeued]
  | cons c cs ih =>
    intro rb h hlen hstored hval
    have hval' : ∀ v, Call.enqueue v ∈ cs → v ≠ -1 :=
      fun v hv => hval v (List.mem_cons_of_mem _ hv)
    have ih1 := ih _ (rb_inrange_call rb c h) ((rb_length_call rb c).trans hlen)
    cases c with
    | enqueue v =>
      rcases rb_isfull_cases rb with hf | hf
      · simp only [rb_call, rb_enqueue_of_full rb v hf] at ih1
        simp only [rb_trace, removals, dequeued, rb_call, rb_enqueue_of_full rb v hf]
        exact ih1 hstored hval'
      · have hcont := rb_contents_enqueue rb v h hlen hf
        have hv : v ≠ -1 := hval v (List.mem_cons_self _ _)
        simp only [rb_call] at ih1
        simp only [rb_trace, removals, dequeued, rb_call]
        refine ih1 ?_ hval'
        rw [hcont]
        intro x hx
        rcases List.mem_append.1 hx with hx | hx
        · exact hstored x hx
        · simp only [List.mem_singleton] at hx
          rw [hx]; exact hv
    | dequeue =>
      rcases rb_isempty_cases rb with he | he
      · simp only [rb_call, rb_dequeue_of_empty rb he] at ih1
        have ih2 := ih1 hstored hval'
        simp [rb_trace, removals, dequeued, rb_call, rb_dequeue_of_empty rb he, he, ih2]
      · have hcont := rb_contents_dequeue rb h he
        have hx : (rb_dequeue rb).1 ≠ -1 := hstored _ (by rw [hcont]; exact List.mem_cons_self _ _)
        simp only [rb_call] at ih1
        have ih2 := ih1 (fun x hx' => hstored x (by
          rw [hcont]; exact List.mem_cons_of_mem _ hx')) hval'
        simp only [rb_trace, removals, dequeued, rb_call]
        simp [he, hx, ih2]

/-! ## The claims about the ring -/

/-- C1. FIFO with no loss or duplication: for every sequence of `rb_enqueue` /
`rb_dequeue` calls applied to a ring returned by `rb_create`, in which every
enqueued value differs from `-1`, the values returned by the successful
`rb_dequeue` calls are, in order, a prefix of the values of the successful
`rb_enqueue` calls; what remains of the latter is exactly what the ring still
stores.  The sequence is arbitrary, so the cursors may have wrapped around. -/
theorem rb_fifo (block : Option (List Int)) (rb : ring) (calls : List Call)
    (hcreate : rb_create block = some rb) (hlen : rb.data.length = 256)
    (hval : ∀ v, Call.enqueue v ∈ calls → v ≠ -1) :
    dequeued (rb_trace rb calls) <+: enqueued (rb_trace rb calls) ∧
      dequeued (rb_trace rb calls) ++ rb_contents (rb_run rb calls)
        = enqueued (rb_trace rb calls) := by
  have hin := (rb_create_inrange block rb hcreate).1
  have hnil := rb_contents_create block rb hcreate
  have hmain := rb_fifo_run calls rb hin hlen (by simp [hnil]) hval
  rw [hnil, List.nil_append] at hmain
  exact ⟨⟨_, hmain⟩, hmain⟩

/-- Witness of C1: a ring of 256 zeroed slots, two values pushed, two popped. -/
theorem rb_fifo_witness :
    rb_create (some (List.replicate 256 0)) = some ⟨0, 1, List.replicate 256 0⟩ ∧
      dequeued (rb_trace ⟨0, 1, List.replicate 256 0⟩
          [Call.enqueue 7, Call.enqueue 9, Call.dequeue, Call.dequeue, Call.dequeue])
        <+: enqueued (rb_trace ⟨0, 1, List.replicate 256 0⟩
          [Call.enqueue 7, Call.enqueue 9, Call.dequeue, Call.dequeue, Call.dequeue]) :=
  ⟨rfl, (rb_fifo (some (List.replicate 256 0)) ⟨0, 1, List.replicate 256 0⟩
    [Call.enqueue 7, Call.enqueue 9, Call.dequeue, Call.dequeue, Call.dequeue]
    rfl (List.length_replicate _ _) (by simp)).1⟩

/-- C2. Occupancy invariant: in every state reached from `rb_create` by
`rb_enqueue` and `rb_dequeue`, with `count = (tail - head - 1) mod 256` and
capacity 255, `0 ≤ count ≤ capacity`, `count` is the number of successful
enqueues minus the number of successful dequeues, `rb_isempty` reports `-1` iff
`count = 0` and `rb_isfull` reports `-1` iff `count = capacity`.  A dequeue is
successful when it removed a value (it was made on a ring that was not empty);
when no enqueued value is `-1` these are exactly the dequeues that returned
something other than `-1`. -/
theorem rb_occupancy (block : Option (List Int)) (rb : ring) (calls : List Call)
    (hcreate : rb_create block = some rb) :
    rb_capacity = 255 ∧
    0 ≤ rb_count (rb_run rb calls) ∧ rb_count (rb_run rb calls) ≤ rb_capacity ∧
    rb_count (rb_run rb calls)
      = ((enqueued (rb_trace rb calls)).length : Int) - (removals (rb_trace rb calls) : Int) ∧
    (rb_isempty (rb_run rb calls) = -1 ↔ rb_count (rb_run rb calls) = 0) ∧
    (rb_isfull (rb_run rb calls) = -1 ↔ rb_count (rb_run rb calls) = rb_capacity) ∧
    (rb.data.length = 256 → (∀ v, Call.enqueue v ∈ calls → v ≠ -1) →
      removals (rb_trace rb calls) = (dequeued (rb_trace rb calls)).length) := by
  obtain ⟨hin, h0⟩ := rb_create_inrange block rb hcreate
  have hrun := rb_inrange_run calls rb hin
  have hcnt := rb_count_run calls rb hin
  have hr := rb_count_range (rb_run rb calls)
  have hnil := rb_contents_create block rb hcreate
  refine ⟨by simp [rb_capacity, BUFFER_LENGTH], hr.1, hr.2, by omega,
    rb_isempty_count _ hrun, rb_isfull_count _ hrun,
    fun hlen hval => rb_removals_run calls rb hin hlen (by simp [hnil]) hval⟩

/-- Witness of C2: three pushes and one pop on a fresh ring. -/
theorem rb_occupancy_witness :
    rb_create (some (List.replicate 256 0)) = some ⟨0, 1, List.replicate 256 0⟩ ∧
      rb_count (rb_run ⟨0, 1, List.replicate 256 0⟩
        [Call.enqueue 4, Call.enqueue 5, Call.dequeue, Call.enqueue 6])
        = ((enqueued (rb_trace ⟨0, 1, List.replicate 256 0⟩
            [Call.enqueue 4, Call.enqueue 5, Call.dequeue, Call.enqueue 6])).length : Int)
          - (removals (rb_trace ⟨0, 1, List.replicate 256 0⟩
            [Call.enqueue 4, Call.enqueue 5, Call.dequeue, Call.enqueue 6]) : Int) :=
  ⟨rfl, (rb_occupancy (some (List.replicate 256 0)) ⟨0, 1, List.replicate 256 0⟩
    [Call.enqueue 4, Call.enqueue 5, Call.dequeue, Call.enqueue 6] rfl).2.2.2.1⟩

/-- C3. A push never inserts into a full queue: on a ring `rb_isfull` reports
full, `rb_enqueue` returns `0` and leaves head, tail and every data slot as they
were; and the acceptor's push loop completes only through a successful
`rb_enqueue` made on a ring that was not full at that moment (the ring it had
after `n` waits). -/
theorem rb_enqueue_never_into_full (rb : ring) (value : Int) :
    (rb_isfull rb = -1 → rb_enqueue rb value = (0, rb)) ∧
    (∀ (wakes : List ring) (rb' : ring) (n : Nat),
      push_loop rb value wakes = some (rb', n) →
        ∃ s, (rb :: wakes)[n]? = some s ∧ rb_isfull s = 0 ∧
          rb_enqueue s value = (-1, rb')) :=
  ⟨rb_enqueue_of_full rb value, fun wakes rb' n h => push_loop_done value wakes rb rb' n h⟩

/-- Witness of C3: a full ring (`tail = head`) refuses the value; the push loop
started on it completes at the first wake-up that finds room. -/
theorem rb_enqueue_never_into_full_witness :
    rb_isfull ⟨3, 3, List.replicate 256 0⟩ = -1 ∧
    push_loop ⟨3, 3, List.replicate 256 0⟩ 9 [⟨4, 3, List.replicate 256 0⟩]
      = some (⟨4, 4, (List.replicate 256 0).set 2 9⟩, 1) ∧
    rb_enqueue ⟨3, 3, List.replicate 256 0⟩ 9 = (0, ⟨3, 3, List.replicate 256 0⟩) ∧
    (∃ s, ((⟨3, 3, List.replicate 256 0⟩ : ring) :: [⟨4, 3, List.replicate 256 0⟩])[1]? = some s ∧
      rb_isfull s = 0 ∧
      rb_enqueue s 9 = (-1, ⟨4, 4, (List.replicate 256 0).set 2 9⟩)) :=
  ⟨rfl, rfl,
    (rb_enqueue_never_into_full ⟨3, 3, List.replicate 256 0⟩ 9).1 rfl,
    (rb_enqueue_never_into_full ⟨3, 3, List.replicate 256 0⟩ 9).2
      [⟨4, 3, List.replicate 256 0⟩] ⟨4, 4, (List.replicate 256 0).set 2 9⟩ 1 rfl⟩

/-- C4. Effect of a successful `rb_enqueue`: on a ring with `0 ≤ head, tail < 256`
that is not full, `rb_enqueue rb v` returns `-1`, stores `v` at index
`(tail - 1) mod 256`, advances `tail` by one modulo 256, and leaves `head` and
every other data slot unchanged.  Only the range of `tail` is used, so the
statement holds whatever `head` is, in particular for `0 ≤ head < 256`. -/
theorem rb_enqueue_effect (rb : ring) (v : Int)
    (htail : 0 ≤ rb.tail ∧ rb.tail < 256)
    (hlen : rb.data.length = 256) (hnf : rb_isfull rb = 0) :
    (rb_enqueue rb v).1 = -1 ∧
    (rb_enqueue rb v).2.data[((rb.tail - 1) % 256).toNat]? = some v ∧
    (rb_enqueue rb v).2.tail = (rb.tail + 1) % 256 ∧
    (rb_enqueue rb v).2.head = rb.head ∧
    (∀ j : Nat, j ≠ ((rb.tail - 1) % 256).toNat →
      (rb_enqueue rb v).2.data[j]? = rb.data[j]?) ∧
    (rb_enqueue rb v).2.data.length = 256 := by
  have hidx : rb_enqueue_index rb = (rb.tail - 1) % 256 := by
    simp only [rb_enqueue_index, BUFFER_LENGTH]
    rw [tmod_buffer _ (by omega)]
    omega
  have h0 : 0 ≤ (rb.tail - 1) % 256 := by omega
  have hlt : ((rb.tail - 1) % 256).toNat < rb.data.length := by omega
  rw [rb_enqueue_of_not_full rb v hnf, hidx]
  refine ⟨rfl, ?_, tmod_buffer _ (by omega), rfl, ?_, ?_⟩
  · simp [arr_set, h0, List.getElem?_set, hlt]
  · intro j hj
    simp [arr_set, h0, List.getElem?_set, Ne.symm hj]
  · simp [arr_set, h0, hlen]

/-- Witness of C4: `tail = 0`, so the slot written is the last one, 255. -/
theorem rb_enqueue_effect_witness :
    rb_isfull ⟨5, 0, List.replicate 256 0⟩ = 0 ∧
    (rb_enqueue ⟨5, 0, List.replicate 256 0⟩ 42).1 = -1 ∧
    (rb_enqueue ⟨5, 0, List.replicate 256 0⟩ 42).2.data[255]? = some 42 ∧
    (rb_enqueue ⟨5, 0, List.replicate 256 0⟩ 42).2.tail = 1 :=
  have h := rb_enqueue_effect ⟨5, 0, List.replicate 256 0⟩ 42
    (by decide) (List.length_replicate _ _) rfl
  ⟨rfl, h.1, h.2.1, h.2.2.1⟩

/-- C5. Specification of `rb_dequeue`: on an empty ring it returns `-1` and
leaves head, tail and data unchanged; otherwise it returns `data[head]`,
advances `head` by one modulo 256 (the C expression `(head + 1) % 256`, which
for a head in `[0, 256)` is the mathematical remainder) and leaves `tail` and
every data slot unchanged. -/
theorem rb_dequeue_spec (rb : ring) :
    (rb_isempty rb = -1 → rb_dequeue rb = (-1, rb)) ∧
    (rb_isempty rb ≠ -1 →
      (rb_dequeue rb).1 = arr_get rb.data rb.head ∧
      (0 ≤ rb.head → rb.head < rb.data.length →
        rb.data[rb.head.toNat]? = some (rb_dequeue rb).1) ∧
      (rb_dequeue rb).2.head = (rb.head + 1).tmod 256 ∧
      (0 ≤ rb.head → (rb_dequeue rb).2.head = (rb.head + 1) % 256) ∧
      (rb_dequeue rb).2.tail = rb.tail ∧
      (rb_dequeue rb).2.data = rb.data) := by
  refine ⟨rb_dequeue_of_empty rb, fun hne => ?_⟩
  have he : rb_isempty rb = 0 := by
    rcases rb_isempty_cases rb with h | h
    · exact absurd h hne
    · exact h
  rw [rb_dequeue_of_not_empty rb he]
  refine ⟨rfl, ?_, rfl, ?_, rfl, rfl⟩
  · intro h0 h1
    have h2 : rb.head.toNat < rb.data.length := by omega
    simp [arr_get, h0, List.getD_eq_getElem?_getD, List.getElem?_eq_getElem h2]
  · intro h0
    exact tmod_buffer _ (by omega)

/-- Witness of C5: an empty ring, and a ring holding one value at slot 255. -/
theorem rb_dequeue_spec_witness :
    rb_isempty ⟨0, 1, List.replicate 256 0⟩ = -1 ∧
    rb_dequeue ⟨0, 1, List.replicate 256 0⟩ = (-1, ⟨0, 1, List.replicate 256 0⟩) ∧
    rb_isempty ⟨255, 1, List.replicate 256 8⟩ ≠ -1 ∧
    (rb_dequeue ⟨255, 1, List.replicate 256 8⟩).2.head = (255 + 1) % 256 :=
  ⟨rfl, (rb_dequeue_spec ⟨0, 1, List.replicate 256 0⟩).1 rfl, by decide,
    ((rb_dequeue_spec ⟨255, 1, List.replicate 256 8⟩).2 (by decide)).2.2.2.1 (by decide)⟩

/-! ## Properties of the compatibility layer -/

theorem _net_socket_eq (b : Build) (E : Errno) (os : OpenScript) (k : Kernel)
    (cloexec nonblock : Int) :
    _net_socket b E os k cloexec nonblock =
      if b.sock_ext then
        if NET_SOCKET_OK (sys_new_socket k (decide (nonblock ≠ 0)) os.ext).1 then
          sys_new_socket k (decide (nonblock ≠ 0)) os.ext
        else if (sys_new_socket k (decide (nonblock ≠ 0)) os.ext).2.errno ≠ E.EINVAL then
          sys_new_socket k (decide (nonblock ≠ 0)) os.ext
        else open_plain_path b os cloexec nonblock
          (sys_new_socket k (decide (nonblock ≠ 0)) os.ext).2
      else open_plain_path b os cloexec nonblock k := rfl

theorem _net_accept_eq (b : Build) (E : Errno) (os : OpenScript) (k : Kernel)
    (cloexec nonblock : Int) :
    _net_accept b E os k cloexec nonblock =
      if b.have_accept4 && b.sock_ext then
        if NET_SOCKET_OK (sys_new_socket k (decide (nonblock ≠ 0)) os.ext).1 then
          sys_new_socket k (decide (nonblock ≠ 0)) os.ext
        else if (sys_new_socket k (decide (nonblock ≠ 0)) os.ext).2.errno ≠ E.EINVAL
            && (sys_new_socket k (decide (nonblock ≠ 0)) os.ext).2.errno ≠ E.ENOSYS then
          sys_new_socket k (decide (nonblock ≠ 0)) os.ext
        else open_plain_path b os cloexec nonblock
          (sys_new_socket k (decide (nonblock ≠ 0)) os.ext).2
      else open_plain_path b os cloexec nonblock k := rfl

theorem sys_fcntl_same (k : Kernel) (o : Outcome) : SameSockets k (sys_fcntl k o).2 := by
  unfold sys_fcntl SameSockets
  split <;> simp

theorem sys_fcntl_ret (k : Kernel) (o : Outcome) : (sys_fcntl k o).1 = o.ret := by
  unfold sys_fcntl
  split <;> simp [*]

theorem sys_plain_same (k : Kernel) (o : Outcome) : SameSockets k (sys_plain k o).2 := by
  unfold sys_plain SameSockets
  split <;> simp

theorem sys_plain_ret (k : Kernel) (o : Outcome) : (sys_plain k o).1 = o.ret := by
  unfold sys_plain
  split <;> simp

theorem net_close_effect (k : Kernel) (fd : Int) (o : Outcome) :
    (net_close k fd o).2.created = k.created ∧
    (net_close k fd o).2.closed = k.closed ++ [fd] ∧
    (net_close k fd o).2.nonblocking = k.nonblocking := by
  unfold net_close sys_close
  by_cases h : o.ret = 0 <;> simp [h]

theorem set_nonblocking_result (k : Kernel) (sock : Int) (getfl setfl : Outcome) :
    ((_net_socket_set_nonblocking k sock getfl setfl).1 = -1 ∧
        (getfl.ret = -1 ∨ setfl.ret = -1) ∧
        SameSockets k (_net_socket_set_nonblocking k sock getfl setfl).2) ∨
    ((_net_socket_set_nonblocking k sock getfl setfl).1 = 0 ∧
        getfl.ret ≠ -1 ∧ setfl.ret ≠ -1 ∧
        (_net_socket_set_nonblocking k sock getfl setfl).2.created = k.created ∧
        (_net_socket_set_nonblocking k sock getfl setfl).2.closed = k.closed ∧
        (_net_socket_set_nonblocking k sock getfl setfl).2.nonblocking
          = sock :: k.nonblocking) := by
  unfold _net_socket_set_nonblocking sys_fcntl_setfl_nonblock sys_fcntl SameSockets
  by_cases h1 : getfl.ret = -1
  · simp [h1]
  · by_cases h2 : setfl.ret = -1
    · simp [h1, h2]
    · simp [h1, h2]

theorem open_set_mode_result (os : OpenScript) (s : Int) (k : Kernel) :
    ((open_set_mode os s 1 k).1 = s ∧ os.getfl.ret ≠ -1 ∧ os.setfl.ret ≠ -1 ∧
        (open_set_mode os s 1 k).2.created = k.created ∧
        (open_set_mode os s 1 k).2.closed = k.closed ∧
        (open_set_mode os s 1 k).2.nonblocking = s :: k.nonblocking) ∨
    ((open_set_mode os s 1 k).1 = -1 ∧ (os.getfl.ret = -1 ∨ os.setfl.ret = -1) ∧
        (open_set_mode os s 1 k).2.created = k.created ∧
        (open_set_mode os s 1 k).2.closed = k.closed ++ [s] ∧
        (open_set_mode os s 1 k).2.nonblocking = k.nonblocking) := by
  have hclose := net_close_effect (_net_socket_set_nonblocking k s os.getfl os.setfl).2 s os.close
  rcases set_nonblocking_result k s os.getfl os.setfl with ⟨h1, hwhy, h2, h3, h4⟩ | ⟨h1, hg, hs, h2, h3, h4⟩
  · right
    simp only [open_set_mode, h1, NET_INVALID_SOCKET]
    simp only [ne_eq, one_ne_zero, not_false_eq_true, if_true]
    rw [hclose.1, hclose.2.1, hclose.2.2, h2, h3, h4]
    exact ⟨trivial, hwhy, rfl, rfl, rfl⟩
  · left
    simp only [open_set_mode, h1]
    simp only [ne_eq, one_ne_zero, not_false_eq_true, if_true]
    simp only [show ¬ ((0 : Int) = -1) by decide, if_false]
    exact ⟨trivial, hg, hs, h2, h3, h4⟩

theorem open_plain_path_result (b : Build) (os : OpenScript) (k : Kernel) :
    OpenResult k (open_plain_path b os 1 1 k) ∧
    (0 ≤ (open_plain_path b os 1 1 k).1 →
      (open_plain_path b os 1 1 k).1 = os.plain.ret ∧ os.getfl.ret ≠ -1 ∧
        os.setfl.ret ≠ -1) := by
  unfold open_plain_path
  by_cases hp : os.plain.ret ≥ 0
  · have hnew : sys_new_socket k false os.plain
        = (os.plain.ret, { k with created := k.created ++ [os.plain.ret] }) := by
      simp [sys_new_socket, hp]
    simp only [hnew, NET_SOCKET_OK, hp, decide_True, Bool.not_true, Bool.false_eq_true,
      if_false]
    by_cases hc : b.fd_cloexec = true
    · simp only [hc, Bool.true_and, ne_eq, one_ne_zero, not_false_eq_true, decide_True,
        if_true]
      have hsame := sys_fcntl_same { k with created := k.created ++ [os.plain.ret] } os.setfd
      have hret := sys_fcntl_ret { k with created := k.created ++ [os.plain.ret] } os.setfd
      obtain ⟨s1, s2, s3⟩ := hsame
      by_cases hfd : os.setfd.ret = -1
      · have hclose := net_close_effect
          (sys_fcntl { k with created := k.created ++ [os.plain.ret] } os.setfd).2
          os.plain.ret os.close
        simp only [hret, hfd, if_true, NET_INVALID_SOCKET]
        refine ⟨Or.inr (Or.inr ⟨rfl, os.plain.ret, hp, ?_, ?_, ?_⟩), fun h => absurd h (by decide)⟩
        · rw [hclose.1, s1]
        · rw [hclose.2.1, s2]
        · rw [hclose.2.2, s3]
      · simp only [hret, hfd, if_false]
        rcases open_set_mode_result os os.plain.ret
          (sys_fcntl { k with created := k.created ++ [os.plain.ret] } os.setfd).2
          with ⟨e1, hg, hs, e2, e3, e4⟩ | ⟨e1, _, e2, e3, e4⟩
        · refine ⟨Or.inl ⟨by rw [e1]; exact hp, ?_, ?_, ?_⟩, fun _ => ⟨e1, hg, hs⟩⟩
          · rw [e1, e2, s1]
          · rw [e3, s2]
          · rw [e1, e4, s3]
        · refine ⟨Or.inr (Or.inr ⟨e1, os.plain.ret, hp, ?_, ?_, ?_⟩),
            fun h => absurd h (by rw [e1]; decide)⟩
          · rw [e2, s1]
          · rw [e3, s2]
          · rw [e4, s3]
    · simp only [hc, Bool.false_and, Bool.false_eq_true, if_false]
      rcases open_set_mode_result os os.plain.ret
          { k with created := k.created ++ [os.plain.ret] }
          with ⟨e1, hg, hs, e2, e3, e4⟩ | ⟨e1, _, e2, e3, e4⟩
      · refine ⟨Or.inl ⟨by rw [e1]; exact hp, ?_, ?_, ?_⟩, fun _ => ⟨e1, hg, hs⟩⟩
        · rw [e1, e2]
        · rw [e3]
        · rw [e1, e4]
      · refine ⟨Or.inr (Or.inr ⟨e1, os.plain.ret, hp, ?_, ?_, ?_⟩),
          fun h => absurd h (by rw [e1]; decide)⟩
        · rw [e2]
        · rw [e3]
        · rw [e4]
  · have hnew : sys_new_socket k false os.plain = (os.plain.ret, { k with errno := os.plain.err }) := by
      simp [sys_new_socket, hp]
    simp only [hnew, NET_SOCKET_OK, hp, decide_False, Bool.not_false, if_true]
    exact ⟨Or.inr (Or.inl ⟨by omega, rfl, rfl, rfl⟩), fun h => h.elim⟩

theorem OpenResult_of_same (k k1 : Kernel) (r : Int × Kernel) (hs : SameSockets k k1)
    (h : OpenResult k1 r) : OpenResult k r := by
  obtain ⟨s1, s2, s3⟩ := hs
  unfold OpenResult at h ⊢
  rw [s1, s2, s3] at h
  exact h

theorem sys_new_socket_ok (k : Kernel) (nb : Bool) (o : Outcome) (h : 0 ≤ o.ret) :
    sys_new_socket k nb o
      = (o.ret, { k with created := k.created ++ [o.ret],
                         nonblocking := if nb then o.ret :: k.nonblocking
                                        else k.nonblocking }) := by
  simp [sys_new_socket, h]

theorem sys_new_socket_fail (k : Kernel) (nb : Bool) (o : Outcome) (h : ¬ 0 ≤ o.ret) :
    sys_new_socket k nb o = (o.ret, { k with errno := o.err }) := by
  simp [sys_new_socket, h]

theorem net_socket_nonblocking_result (b : Build) (E : Errno) (os : OpenScript) (k : Kernel) :
    OpenResult k (net_socket_nonblocking b E os k) ∧
    (0 ≤ (net_socket_nonblocking b E os k).1 →
      (b.sock_ext = true ∧ 0 ≤ os.ext.ret ∧
          (net_socket_nonblocking b E os k).1 = os.ext.ret) ∨
      ((b.sock_ext = false ∨ (os.ext.ret < 0 ∧ os.ext.err = E.EINVAL)) ∧
          (net_socket_nonblocking b E os k).1 = os.plain.ret ∧
          os.getfl.ret ≠ -1 ∧ os.setfl.ret ≠ -1)) := by
  unfold net_socket_nonblocking
  rw [_net_socket_eq]
  by_cases hb : b.sock_ext = true
  · simp only [hb, if_true]
    by_cases he : 0 ≤ os.ext.ret
    · rw [sys_new_socket_ok k _ os.ext he]
      simp only [NET_SOCKET_OK, ge_iff_le, he, decide_True, if_true]
      refine ⟨Or.inl ⟨he, rfl, rfl, ?_⟩, fun _ => Or.inl ⟨trivial, trivial, trivial⟩⟩
      simp
    · rw [sys_new_socket_fail k _ os.ext he]
      simp only [NET_SOCKET_OK, ge_iff_le, he, decide_False, Bool.false_eq_true, if_false]
      by_cases hv : os.ext.err = E.EINVAL
      · simp only [hv, ne_eq, not_true_eq_false, if_false]
        have hp := open_plain_path_result b os { k with errno := E.EINVAL }
        refine ⟨OpenResult_of_same k _ _ ⟨rfl, rfl, rfl⟩ hp.1, fun h => ?_⟩
        obtain ⟨h1, h2, h3⟩ := hp.2 h
        exact Or.inr ⟨Or.inr ⟨by omega, trivial⟩, h1, h2, h3⟩
      · simp only [ne_eq, hv, not_false_eq_true, if_true]
        exact ⟨Or.inr (Or.inl ⟨by omega, rfl, rfl, rfl⟩), fun h => absurd h he⟩
  · simp only [hb, Bool.false_eq_true, if_false]
    have hp := open_plain_path_result b os k
    refine ⟨hp.1, fun h => ?_⟩
    obtain ⟨h1, h2, h3⟩ := hp.2 h
    exact Or.inr ⟨Or.inl (by simp), h1, h2, h3⟩

theorem net_accept_nonblocking_result (b : Build) (E : Errno) (os : OpenScript) (k : Kernel) :
    OpenResult k (net_accept_nonblocking b E os k) := by
  unfold net_accept_nonblocking
  rw [_net_accept_eq]
  by_cases hb : (b.have_accept4 && b.sock_ext) = true
  · simp only [hb, if_true]
    by_cases he : 0 ≤ os.ext.ret
    · rw [sys_new_socket_ok k _ os.ext he]
      simp only [NET_SOCKET_OK, ge_iff_le, he, decide_True, if_true]
      refine Or.inl ⟨he, rfl, rfl, ?_⟩
      simp
    · rw [sys_new_socket_fail k _ os.ext he]
      simp only [NET_SOCKET_OK, ge_iff_le, he, decide_False, Bool.false_eq_true, if_false]
      split
      · exact Or.inr (Or.inl ⟨by omega, rfl, rfl, rfl⟩)
      · exact OpenResult_of_same k _ _ ⟨rfl, rfl, rfl⟩ (open_plain_path_result b os _).1
  · simp only [hb, Bool.false_eq_true, if_false]
    exact (open_plain_path_result b os k).1

theorem make_reuseable_same (k : Kernel) (o : Outcome) :
    SameSockets k (net_socket_make_reuseable_unix k o).2 := by
  have h := sys_plain_same k o
  unfold net_socket_make_reuseable_unix
  simp only []
  split <;> exact h

theorem make_reuseable_ret (k : Kernel) (o : Outcome) :
    (net_socket_make_reuseable_unix k o).1 = -1 ∨ (net_socket_make_reuseable_unix k o).1 = 0 := by
  unfold net_socket_make_reuseable_unix
  simp only []
  split <;> simp

/-! ## The claims about the compatibility layer, the acceptor and the connector -/

/-- C6. The socket error classifier of the Unix macro table returns the
documented category for every raw code `e`, whatever the values of the
`<errno.h>` constants (in particular whether or not `EAGAIN == EWOULDBLOCK`). -/
theorem errno_classification (E : Errno) (e : Int) :
    (NET_SOCKET_ERRNO_IS_EAGAIN E e = true ↔ e = E.EAGAIN ∨ e = E.EWOULDBLOCK) ∧
    (NET_SOCKET_ERRNO_IS_ACCEPT_EAGAIN E e = true ↔
      e = E.EAGAIN ∨ e = E.EWOULDBLOCK ∨ e = E.ECONNABORTED) ∧
    (NET_SOCKET_ERRNO_IS_RESOURCE_LIMIT E e = true ↔
      e = E.EMFILE ∨ e = E.ENFILE ∨ e = E.ENOBUFS ∨ e = E.ENOMEM) ∧
    (NET_SOCKET_ERRNO_IS_EADDRINUSE E e = true ↔ e = E.EADDRINUSE) ∧
    (NET_SOCKET_ERRNO_IS_CONN_EINPROGRESS E e = true ↔ e = E.EINPROGRESS) ∧
    (NET_SOCKET_ERRNO_IS_EINTR E e = true ↔ e = E.EINTR) := by
  have h1 : NET_SOCKET_ERRNO_IS_EAGAIN E e = true ↔ e = E.EAGAIN ∨ e = E.EWOULDBLOCK := by
    unfold NET_SOCKET_ERRNO_IS_EAGAIN
    by_cases h : E.EAGAIN = E.EWOULDBLOCK
    · simp [h]
    · simp [h]
  refine ⟨h1, ?_, ?_, ?_, ?_, ?_⟩
  · unfold NET_SOCKET_ERRNO_IS_ACCEPT_EAGAIN
    rw [Bool.or_eq_true, h1]
    simp [or_assoc]
  · simp [NET_SOCKET_ERRNO_IS_RESOURCE_LIMIT, or_assoc]
  · simp [NET_SOCKET_ERRNO_IS_EADDRINUSE]
  · simp [NET_SOCKET_ERRNO_IS_CONN_EINPROGRESS]
  · simp [NET_SOCKET_ERRNO_IS_EINTR]

/-- C7. Acceptor failure policy: a pass of the accept loop of `_server_tcp_loop`
leaves the loop iff `net_accept_nonblocking` failed with an error code that is
neither would-block nor resource exhaustion; a would-block or
resource-exhaustion failure goes on with the next pass with the ring untouched
and nothing pushed; and a failure of the reuse hardening on an accepted socket
goes on with the next pass too. -/
theorem acceptor_failure_policy (b : Build) (E : Errno) (os : PassScript) (st : Server) :
    ((_server_tcp_loop_body b E os st).1 = Ctl.leave ↔
      (NET_SOCKET_OK (net_accept_nonblocking b E os.accept st.kernel).1 = false ∧
        NET_SOCKET_ERRNO_IS_ACCEPT_EAGAIN E
          (net_accept_nonblocking b E os.accept st.kernel).2.errno = false ∧
        NET_SOCKET_ERRNO_IS_RESOURCE_LIMIT E
          (net_accept_nonblocking b E os.accept st.kernel).2.errno = false)) ∧
    (NET_SOCKET_OK (net_accept_nonblocking b E os.accept st.kernel).1 = false →
      (NET_SOCKET_ERRNO_IS_ACCEPT_EAGAIN E
          (net_accept_nonblocking b E os.accept st.kernel).2.errno = true ∨
        NET_SOCKET_ERRNO_IS_RESOURCE_LIMIT E
          (net_accept_nonblocking b E os.accept st.kernel).2.errno = true) →
      (_server_tcp_loop_body b E os st).1 = Ctl.next ∧
        (_server_tcp_loop_body b E os st).2.rb = st.rb ∧
        (_server_tcp_loop_body b E os st).2.pushed = st.pushed) ∧
    (NET_SOCKET_OK (net_accept_nonblocking b E os.accept st.kernel).1 = true →
      (net_socket_make_reuseable_unix (net_accept_nonblocking b E os.accept st.kernel).2
          os.setsockopt).1 < 0 →
      (_server_tcp_loop_body b E os st).1 = Ctl.next) := by
  unfold _server_tcp_loop_body
  generalize net_accept_nonblocking b E os.accept st.kernel = a
  by_cases hok : NET_SOCKET_OK a.1 = true
  · simp only [hok, Bool.not_true, Bool.false_eq_true, if_false]
    by_cases hr : (net_socket_make_reuseable_unix a.2 os.setsockopt).1 < 0
    · simp [hr]
    · simp only [hr, if_false]
      cases push_loop st.rb a.1 os.wakes <;> simp
  · have hok' : NET_SOCKET_OK a.1 = false := by simpa using hok
    simp only [hok', Bool.not_false, if_true]
    by_cases h1 : NET_SOCKET_ERRNO_IS_ACCEPT_EAGAIN E a.2.errno = true
    · simp [h1]
    · have h1' : NET_SOCKET_ERRNO_IS_ACCEPT_EAGAIN E a.2.errno = false := by simpa using h1
      by_cases h2 : NET_SOCKET_ERRNO_IS_RESOURCE_LIMIT E a.2.errno = true
      · simp [h1', h2]
      · have h2' : NET_SOCKET_ERRNO_IS_RESOURCE_LIMIT E a.2.errno = false := by simpa using h2
        simp [h1', h2']

/-- Witness of C7 on the Linux table: `accept4` fails with `EMFILE` (24), the
pass goes on with the ring untouched; `accept4` returns descriptor 7 and
`setsockopt` fails, the pass goes on as well. -/
theorem acceptor_failure_policy_witness :
    ((_server_tcp_loop_body ⟨true, true, true⟩ linux_errno
        ⟨⟨⟨-1, 24⟩, ⟨-1, 24⟩, ⟨0, 0⟩, ⟨2, 0⟩, ⟨0, 0⟩, ⟨0, 0⟩⟩, ⟨0, 0⟩, ⟨0, 0⟩, []⟩
        ⟨Kernel.start 0, ⟨0, 1, List.replicate 256 0⟩, []⟩).1 = Ctl.next ∧
      (_server_tcp_loop_body ⟨true, true, true⟩ linux_errno
        ⟨⟨⟨-1, 24⟩, ⟨-1, 24⟩, ⟨0, 0⟩, ⟨2, 0⟩, ⟨0, 0⟩, ⟨0, 0⟩⟩, ⟨0, 0⟩, ⟨0, 0⟩, []⟩
        ⟨Kernel.start 0, ⟨0, 1, List.replicate 256 0⟩, []⟩).2.rb
          = ⟨0, 1, List.replicate 256 0⟩ ∧
      (_server_tcp_loop_body ⟨true, true, true⟩ linux_errno
        ⟨⟨⟨-1, 24⟩, ⟨-1, 24⟩, ⟨0, 0⟩, ⟨2, 0⟩, ⟨0, 0⟩, ⟨0, 0⟩⟩, ⟨0, 0⟩, ⟨0, 0⟩, []⟩
        ⟨Kernel.start 0, ⟨0, 1, List.replicate 256 0⟩, []⟩).2.pushed = []) ∧
    (_server_tcp_loop_body ⟨true, true, true⟩ linux_errno
        ⟨⟨⟨7, 0⟩, ⟨-1, 24⟩, ⟨0, 0⟩, ⟨2, 0⟩, ⟨0, 0⟩, ⟨0, 0⟩⟩, ⟨-1, 22⟩, ⟨0, 0⟩, []⟩
        ⟨Kernel.start 0, ⟨0, 1, List.replicate 256 0⟩, []⟩).1 = Ctl.next :=
  ⟨(acceptor_failure_policy ⟨true, true, true⟩ linux_errno
      ⟨⟨⟨-1, 24⟩, ⟨-1, 24⟩, ⟨0, 0⟩, ⟨2, 0⟩, ⟨0, 0⟩, ⟨0, 0⟩⟩, ⟨0, 0⟩, ⟨0, 0⟩, []⟩
      ⟨Kernel.start 0, ⟨0, 1, List.replicate 256 0⟩, []⟩).2.1 (by decide) (by decide),
    (acceptor_failure_policy ⟨true, true, true⟩ linux_errno
      ⟨⟨⟨7, 0⟩, ⟨-1, 24⟩, ⟨0, 0⟩, ⟨2, 0⟩, ⟨0, 0⟩, ⟨0, 0⟩⟩, ⟨-1, 22⟩, ⟨0, 0⟩, []⟩
      ⟨Kernel.start 0, ⟨0, 1, List.replicate 256 0⟩, []⟩).2.2 (by decide) (by decide)⟩

/-- C8, the code at the failing input.  On the Linux table, an `accept4` (build
with `HAVE_ACCEPT4`) or an `accept` (build without) that fails with `EINTR` (4)
is not retried by `_net_accept`: it returns the negative result with `errno`
still `EINTR` and no second call, and the pass of the accept loop ends in `break`. -/
theorem accept_eintr_leaves_loop :
    net_accept_nonblocking ⟨true, true, true⟩ linux_errno
        ⟨⟨-1, 4⟩, ⟨9, 0⟩, ⟨0, 0⟩, ⟨2, 0⟩, ⟨0, 0⟩, ⟨0, 0⟩⟩ (Kernel.start 0)
      = (-1, ⟨4, [], [], []⟩) ∧
    (_server_tcp_loop_body ⟨true, true, true⟩ linux_errno
        ⟨⟨⟨-1, 4⟩, ⟨9, 0⟩, ⟨0, 0⟩, ⟨2, 0⟩, ⟨0, 0⟩, ⟨0, 0⟩⟩, ⟨0, 0⟩, ⟨0, 0⟩, []⟩
        ⟨Kernel.start 0, ⟨0, 1, List.replicate 256 0⟩, []⟩).1 = Ctl.leave ∧
    (_server_tcp_loop_body ⟨false, true, false⟩ linux_errno
        ⟨⟨⟨9, 0⟩, ⟨-1, 4⟩, ⟨0, 0⟩, ⟨2, 0⟩, ⟨0, 0⟩, ⟨0, 0⟩⟩, ⟨0, 0⟩, ⟨0, 0⟩, []⟩
        ⟨Kernel.start 0, ⟨0, 1, List.replicate 256 0⟩, []⟩).1 = Ctl.leave ∧
    NET_SOCKET_ERRNO_IS_EINTR linux_errno 4 = true := by
  decide

theorem client_connect_result (b : Build) (E : Errno) (os : ConnectScript) (e0 : Int) :
    ((_client_tcp_connect b E os (Kernel.start e0)).1 = -1 ∧
        (_client_tcp_connect b E os (Kernel.start e0)).2.created = [] ∧
        (_client_tcp_connect b E os (Kernel.start e0)).2.closed = []) ∨
    ((_client_tcp_connect b E os (Kernel.start e0)).1 = -1 ∧
        ∃ s, (_client_tcp_connect b E os (Kernel.start e0)).2.created = [s] ∧
          (_client_tcp_connect b E os (Kernel.start e0)).2.closed = [s]) ∨
    (0 ≤ (_client_tcp_connect b E os (Kernel.start e0)).1 ∧
        (_client_tcp_connect b E os (Kernel.start e0)).2.created
          = [(_client_tcp_connect b E os (Kernel.start e0)).1] ∧
        (_client_tcp_connect b E os (Kernel.start e0)).2.closed = []) := by
  unfold _client_tcp_connect
  by_cases hg : os.getaddrinfo = 0
  · simp only [hg, ne_eq, not_true_eq_false, if_false]
    have hres := (net_socket_nonblocking_result b E os.socket (Kernel.start e0)).1
    generalize net_socket_nonblocking b E os.socket (Kernel.start e0) = s at hres
    have hreuse := make_reuseable_same s.2 os.setsockopt
    generalize (net_socket_make_reuseable_unix s.2 os.setsockopt).2 = k2 at hreuse
    have hconn := sys_plain_same k2 os.connect
    generalize hc : sys_plain k2 os.connect = c at hconn
    have hclose := net_close_effect c.2 s.1 os.close
    obtain ⟨r1, r2, _⟩ := hreuse
    obtain ⟨c1, c2, _⟩ := hconn
    simp only [OpenResult, Kernel.start, List.nil_append] at hres
    rcases hres with ⟨h0, h1, h2, _⟩ | ⟨h0, h1, h2, _⟩ | ⟨h0, t, _, h1, h2, _⟩
    · have hok : NET_SOCKET_OK s.1 = true := by simp [NET_SOCKET_OK, h0]
      simp only [hok, Bool.not_true, Bool.false_eq_true, if_false]
      by_cases hlt : c.1 < 0
      · simp only [hlt, if_true]
        by_cases hp : NET_SOCKET_ERRNO_IS_CONN_EINPROGRESS E c.2.errno = true
        · simp only [hp, Bool.not_true, Bool.false_eq_true, if_false]
          exact Or.inr (Or.inr ⟨h0, by rw [c1, r1, h1], by rw [c2, r2, h2]⟩)
        · have hp' : NET_SOCKET_ERRNO_IS_CONN_EINPROGRESS E c.2.errno = false := by
            simpa using hp
          simp only [hp', Bool.not_false, if_true, net_socket_close, NET_INVALID_SOCKET]
          refine Or.inr (Or.inl ⟨by first | rfl | trivial, s.1, ?_, ?_⟩)
          · rw [hclose.1, c1, r1, h1]
          · rw [hclose.2.1, c2, r2, h2, List.nil_append]
      · simp only [hlt, if_false]
        exact Or.inr (Or.inr ⟨h0, by rw [c1, r1, h1], by rw [c2, r2, h2]⟩)
    · have hok : NET_SOCKET_OK s.1 = false := by
        simp only [NET_SOCKET_OK, decide_eq_false_iff_not]; omega
      simp only [hok, Bool.not_false, if_true, NET_INVALID_SOCKET]
      exact Or.inl ⟨by first | rfl | trivial, h1, h2⟩
    · have hok : NET_SOCKET_OK s.1 = false := by
        simp only [NET_SOCKET_OK, decide_eq_false_iff_not]; omega
      simp only [hok, Bool.not_false, if_true, NET_INVALID_SOCKET]
      exact Or.inr (Or.inl ⟨by first | rfl | trivial, t, h1, h2⟩)
  · simp only [ne_eq, hg, not_false_eq_true, if_true, NET_INVALID_SOCKET, Kernel.start]
    exact Or.inl ⟨by first | rfl | trivial, by first | rfl | trivial, by first | rfl | trivial⟩

/-- C9. Uniform non-blocking guarantee of socket creation (Unix branch, every
build configuration and every outcome of the system calls): if
`net_socket_nonblocking` returns a valid descriptor, that descriptor is in
non-blocking mode and open, either because `socket` accepted `SOCK_NONBLOCK`, or
because after the plain `socket` both `fcntl(F_GETFL)` and
`fcntl(F_SETFL, flags | O_NONBLOCK)` succeeded; and a socket that was created
but could not be put in non-blocking mode is closed and the result is
`NET_INVALID_SOCKET`. -/
theorem net_socket_nonblocking_guarantee (b : Build) (E : Errno) (os : OpenScript)
    (e0 : Int) :
    (NET_SOCKET_OK (net_socket_nonblocking b E os (Kernel.start e0)).1 = true →
      (net_socket_nonblocking b E os (Kernel.start e0)).1
        ∈ (net_socket_nonblocking b E os (Kernel.start e0)).2.nonblocking ∧
      (net_socket_nonblocking b E os (Kernel.start e0)).1
        ∉ (net_socket_nonblocking b E os (Kernel.start e0)).2.closed ∧
      ((b.sock_ext = true ∧ 0 ≤ os.ext.ret ∧
          (net_socket_nonblocking b E os (Kernel.start e0)).1 = os.ext.ret) ∨
        ((b.sock_ext = false ∨ (os.ext.ret < 0 ∧ os.ext.err = E.EINVAL)) ∧
          (net_socket_nonblocking b E os (Kernel.start e0)).1 = os.plain.ret ∧
          os.getfl.ret ≠ -1 ∧ os.setfl.ret ≠ -1))) ∧
    (∀ s ∈ (net_socket_nonblocking b E os (Kernel.start e0)).2.created,
      s ∉ (net_socket_nonblocking b E os (Kernel.start e0)).2.nonblocking →
        (net_socket_nonblocking b E os (Kernel.start e0)).1 = NET_INVALID_SOCKET ∧
        s ∈ (net_socket_nonblocking b E os (Kernel.start e0)).2.closed) := by
  obtain ⟨hres, hhow⟩ := net_socket_nonblocking_result b E os (Kernel.start e0)
  generalize net_socket_nonblocking b E os (Kernel.start e0) = r at hres hhow
  simp only [OpenResult, Kernel.start, List.nil_append] at hres
  rcases hres with ⟨h0, h1, h2, h3⟩ | ⟨h0, h1, h2, h3⟩ | ⟨h0, t, _, h1, h2, h3⟩
  · refine ⟨fun _ => ⟨by simp [h3], by simp [h2], hhow h0⟩, fun s hs hn => ?_⟩
    rw [h1, List.mem_singleton] at hs
    rw [h3, hs] at hn
    exact absurd (List.mem_cons_self _ _) hn
  · refine ⟨fun hok => ?_, fun s hs _ => ?_⟩
    · simp only [NET_SOCKET_OK, decide_eq_true_eq] at hok
      omega
    · rw [h1] at hs
      exact absurd hs (List.not_mem_nil _)
  · refine ⟨fun hok => ?_, fun s hs _ => ?_⟩
    · simp only [NET_SOCKET_OK, decide_eq_true_eq] at hok
      omega
    · rw [h1] at hs
      rw [h2]
      exact ⟨h0, hs⟩

/-- Witness of C9 on a build with the extension flags: `socket` with the flags
fails with `EINVAL` (22 on Linux), the plain `socket` returns descriptor 5 and
both `fcntl` calls succeed; descriptor 5 is returned, non-blocking. -/
theorem net_socket_nonblocking_guarantee_witness :
    NET_SOCKET_OK (net_socket_nonblocking ⟨true, true, true⟩ linux_errno
      ⟨⟨-1, 22⟩, ⟨5, 0⟩, ⟨0, 0⟩, ⟨2, 0⟩, ⟨0, 0⟩, ⟨0, 0⟩⟩ (Kernel.start 0)).1 = true ∧
    (net_socket_nonblocking ⟨true, true, true⟩ linux_errno
      ⟨⟨-1, 22⟩, ⟨5, 0⟩, ⟨0, 0⟩, ⟨2, 0⟩, ⟨0, 0⟩, ⟨0, 0⟩⟩ (Kernel.start 0)).1
      ∈ (net_socket_nonblocking ⟨true, true, true⟩ linux_errno
        ⟨⟨-1, 22⟩, ⟨5, 0⟩, ⟨0, 0⟩, ⟨2, 0⟩, ⟨0, 0⟩, ⟨0, 0⟩⟩ (Kernel.start 0)).2.nonblocking :=
  ⟨by decide,
    ((net_socket_nonblocking_guarantee ⟨true, true, true⟩ linux_errno
      ⟨⟨-1, 22⟩, ⟨5, 0⟩, ⟨0, 0⟩, ⟨2, 0⟩, ⟨0, 0⟩, ⟨0, 0⟩⟩ 0).1 (by decide)).1⟩

/-- C10. The connector leaks no descriptor on failure: for every outcome of
address resolution, socket creation, reuse hardening and `connect`, if
`_client_tcp_connect` returns `NET_INVALID_SOCKET` then every socket it created
has been closed exactly once (and nothing else was closed); if it returns a
valid descriptor, that descriptor is the socket it created and has not been
closed.  It returns nothing else. -/
theorem client_connect_no_leak (b : Build) (E : Errno) (os : ConnectScript) (e0 : Int) :
    ((_client_tcp_connect b E os (Kernel.start e0)).1 = NET_INVALID_SOCKET →
      (∀ fd ∈ (_client_tcp_connect b E os (Kernel.start e0)).2.created,
        (_client_tcp_connect b E os (Kernel.start e0)).2.closed.count fd = 1) ∧
      (_client_tcp_connect b E os (Kernel.start e0)).2.closed
        = (_client_tcp_connect b E os (Kernel.start e0)).2.created) ∧
    (NET_SOCKET_OK (_client_tcp_connect b E os (Kernel.start e0)).1 = true →
      (_client_tcp_connect b E os (Kernel.start e0)).1
        ∈ (_client_tcp_connect b E os (Kernel.start e0)).2.created ∧
      (_client_tcp_connect b E os (Kernel.start e0)).1
        ∉ (_client_tcp_connect b E os (Kernel.start e0)).2.closed) ∧
    ((_client_tcp_connect b E os (Kernel.start e0)).1 = NET_INVALID_SOCKET ∨
      NET_SOCKET_OK (_client_tcp_connect b E os (Kernel.start e0)).1 = true) := by
  have hres := client_connect_result b E os e0
  generalize _client_tcp_connect b E os (Kernel.start e0) = r at hres
  simp only [NET_INVALID_SOCKET, NET_SOCKET_OK, decide_eq_true_eq]
  rcases hres with ⟨h0, h1, h2⟩ | ⟨h0, t, h1, h2⟩ | ⟨h0, h1, h2⟩
  · refine ⟨fun _ => ⟨?_, by rw [h1, h2]⟩, fun h => by omega, Or.inl h0⟩
    intro fd hfd
    rw [h1] at hfd
    exact absurd hfd (List.not_mem_nil _)
  · refine ⟨fun _ => ⟨?_, by rw [h1, h2]⟩, fun h => by omega, Or.inl h0⟩
    intro fd hfd
    rw [h1, List.mem_singleton] at hfd
    rw [h2, hfd]
    simp
  · refine ⟨fun h => by omega, fun _ => ⟨by rw [h1]; exact List.mem_cons_self _ _, by simp [h2]⟩,
      Or.inr h0⟩

/-- Witness of C10 on the Linux table: `connect` on descriptor 5 fails with
`ECONNREFUSED` (111); the connector returns `NET_INVALID_SOCKET` having closed
descriptor 5 once. -/
theorem client_connect_no_leak_witness :
    (_client_tcp_connect ⟨true, true, true⟩ linux_errno
      ⟨0, ⟨⟨5, 0⟩, ⟨-1, 0⟩, ⟨0, 0⟩, ⟨2, 0⟩, ⟨0, 0⟩, ⟨0, 0⟩⟩, ⟨0, 0⟩, ⟨-1, 111⟩, ⟨0, 0⟩⟩
      (Kernel.start 0)).1 = NET_INVALID_SOCKET ∧
    (_client_tcp_connect ⟨true, true, true⟩ linux_errno
      ⟨0, ⟨⟨5, 0⟩, ⟨-1, 0⟩, ⟨0, 0⟩, ⟨2, 0⟩, ⟨0, 0⟩, ⟨0, 0⟩⟩, ⟨0, 0⟩, ⟨-1, 111⟩, ⟨0, 0⟩⟩
      (Kernel.start 0)).2.closed
      = (_client_tcp_connect ⟨true, true, true⟩ linux_errno
        ⟨0, ⟨⟨5, 0⟩, ⟨-1, 0⟩, ⟨0, 0⟩, ⟨2, 0⟩, ⟨0, 0⟩, ⟨0, 0⟩⟩, ⟨0, 0⟩, ⟨-1, 111⟩, ⟨0, 0⟩⟩
        (Kernel.start 0)).2.created :=
  ⟨by decide,
    ((client_connect_no_leak ⟨true, true, true⟩ linux_errno
      ⟨0, ⟨⟨5, 0⟩, ⟨-1, 0⟩, ⟨0, 0⟩, ⟨2, 0⟩, ⟨0, 0⟩, ⟨0, 0⟩⟩, ⟨0, 0⟩, ⟨-1, 111⟩, ⟨0, 0⟩⟩
      0).1 (by decide)).2⟩

/-! ## Properties of the connector and of the socket setup -/

theorem sys_plain_errno_of_fail (k : Kernel) (o : Outcome) (h : o.ret < 0) :
    (sys_plain k o).2.errno = o.err := by
  simp [sys_plain, h]

theorem client_connect_value (b : Build) (E : Errno) (os : ConnectScript) (k : Kernel) :
    (_client_tcp_connect b E os k).1 =
      (if os.getaddrinfo ≠ 0 then NET_INVALID_SOCKET
       else if !NET_SOCKET_OK (net_socket_nonblocking b E os.socket k).1 then NET_INVALID_SOCKET
       else if os.connect.ret < 0 then
         if !NET_SOCKET_ERRNO_IS_CONN_EINPROGRESS E os.connect.err then NET_INVALID_SOCKET
         else (net_socket_nonblocking b E os.socket k).1
       else (net_socket_nonblocking b E os.socket k).1) ∧
    (_client_tcp_connect b E os k).2.closed =
      (if os.getaddrinfo ≠ 0 then k.closed
       else if !NET_SOCKET_OK (net_socket_nonblocking b E os.socket k).1 then
         (net_socket_nonblocking b E os.socket k).2.closed
       else if os.connect.ret < 0 then
         if !NET_SOCKET_ERRNO_IS_CONN_EINPROGRESS E os.connect.err then
           (net_socket_nonblocking b E os.socket k).2.closed
             ++ [(net_socket_nonblocking b E os.socket k).1]
         else (net_socket_nonblocking b E os.socket k).2.closed
       else (net_socket_nonblocking b E os.socket k).2.closed) ∧
    (_client_tcp_connect b E os k).2.created =
      (if os.getaddrinfo ≠ 0 then k.created
       else (net_socket_nonblocking b E os.socket k).2.created) := by
  unfold _client_tcp_connect
  generalize net_socket_nonblocking b E os.socket k = s
  by_cases hg : os.getaddrinfo = 0
  · simp only [hg, ne_eq, not_true_eq_false, if_false]
    by_cases hok : NET_SOCKET_OK s.1 = true
    · simp only [hok, Bool.not_true, Bool.false_eq_true, if_false]
      have hreuse := make_reuseable_same s.2 os.setsockopt
      generalize (net_socket_make_reuseable_unix s.2 os.setsockopt).2 = k2 at hreuse
      have hconn := sys_plain_same k2 os.connect
      have hret := sys_plain_ret k2 os.connect
      obtain ⟨r1, r2, _⟩ := hreuse
      obtain ⟨c1, c2, _⟩ := hconn
      rw [hret]
      by_cases hlt : os.connect.ret < 0
      · have herr := sys_plain_errno_of_fail k2 os.connect hlt
        simp only [hlt, if_true, herr]
        have hclose := net_close_effect (sys_plain k2 os.connect).2 s.1 os.close
        by_cases hp : NET_SOCKET_ERRNO_IS_CONN_EINPROGRESS E os.connect.err = true
        · simp only [hp, Bool.not_true, Bool.false_eq_true, if_false]
          exact ⟨trivial, by rw [c2, r2], by rw [c1, r1]⟩
        · have hp' : NET_SOCKET_ERRNO_IS_CONN_EINPROGRESS E os.connect.err = false := by
            simpa using hp
          simp only [hp', Bool.not_false, if_true, net_socket_close]
          exact ⟨trivial, by rw [hclose.2.1, c2, r2], by rw [hclose.1, c1, r1]⟩
      · simp only [hlt, if_false]
        exact ⟨trivial, by rw [c2, r2], by rw [c1, r1]⟩
    · have hok' : NET_SOCKET_OK s.1 = false := by simpa using hok
      simp only [hok', Bool.not_false, if_true]
      exact ⟨trivial, trivial, trivial⟩
  · simp only [ne_eq, hg, not_false_eq_true, if_true]
    exact ⟨trivial, trivial, trivial⟩

theorem server_init_value (b : Build) (E : Errno) (os : InitScript) (k : Kernel) :
    (_server_tcp_init b E os k).1 =
      (if os.getaddrinfo ≠ 0 then NET_INVALID_SOCKET
       else if !NET_SOCKET_OK (net_socket_nonblocking b E os.socket k).1 then NET_INVALID_SOCKET
       else if os.bind.ret < 0 then NET_INVALID_SOCKET
       else if os.listen.ret < 0 then NET_INVALID_SOCKET
       else (net_socket_nonblocking b E os.socket k).1) ∧
    (_server_tcp_init b E os k).2.closed =
      (if os.getaddrinfo ≠ 0 then k.closed
       else if !NET_SOCKET_OK (net_socket_nonblocking b E os.socket k).1 then
         (net_socket_nonblocking b E os.socket k).2.closed
       else if os.bind.ret < 0 then
         (net_socket_nonblocking b E os.socket k).2.closed
           ++ [(net_socket_nonblocking b E os.socket k).1]
       else if os.listen.ret < 0 then
         (net_socket_nonblocking b E os.socket k).2.closed
           ++ [(net_socket_nonblocking b E os.socket k).1]
       else (net_socket_nonblocking b E os.socket k).2.closed) ∧
    (_server_tcp_init b E os k).2.created =
      (if os.getaddrinfo ≠ 0 then k.created
       else (net_socket_nonblocking b E os.socket k).2.created) := by
  unfold _server_tcp_init
  generalize net_socket_nonblocking b E os.socket k = s
  by_cases hg : os.getaddrinfo = 0
  · simp only [hg, ne_eq, not_true_eq_false, if_false]
    by_cases hok : NET_SOCKET_OK s.1 = true
    · simp only [hok, Bool.not_true, Bool.false_eq_true, if_false]
      have hreuse := make_reuseable_same s.2 os.setsockopt
      generalize (net_socket_make_reuseable_unix s.2 os.setsockopt).2 = k2 at hreuse
      have hbind := sys_plain_same k2 os.bind
      have hbret := sys_plain_ret k2 os.bind
      have hlisten := sys_plain_same (sys_plain k2 os.bind).2 os.listen
      have hlret := sys_plain_ret (sys_plain k2 os.bind).2 os.listen
      obtain ⟨r1, r2, _⟩ := hreuse
      obtain ⟨b1, b2, _⟩ := hbind
      obtain ⟨l1, l2, _⟩ := hlisten
      rw [hbret, hlret]
      by_cases hb : os.bind.ret < 0
      · have hclose := net_close_effect (sys_plain k2 os.bind).2 s.1 os.close
        simp only [hb, if_true, net_socket_close]
        exact ⟨trivial, by rw [hclose.2.1, b2, r2], by rw [hclose.1, b1, r1]⟩
      · simp only [hb, if_false]
        by_cases hl : os.listen.ret < 0
        · have hclose := net_close_effect
            (sys_plain (sys_plain k2 os.bind).2 os.listen).2 s.1 os.close
          simp only [hl, if_true, net_socket_close]
          exact ⟨trivial, by rw [hclose.2.1, l2, b2, r2], by rw [hclose.1, l1, b1, r1]⟩
        · simp only [hl, if_false]
          exact ⟨trivial, by rw [l2, b2, r2], by rw [l1, b1, r1]⟩
    · have hok' : NET_SOCKET_OK s.1 = false := by simpa using hok
      simp only [hok', Bool.not_false, if_true]
      exact ⟨trivial, trivial, trivial⟩
  · simp only [ne_eq, hg, not_false_eq_true, if_true]
    exact ⟨trivial, trivial, trivial⟩

theorem net_socket_nonblocking_ok_start (b : Build) (E : Errno) (os : OpenScript) (e0 : Int)
    (hok : NET_SOCKET_OK (net_socket_nonblocking b E os (Kernel.start e0)).1 = true) :
    (net_socket_nonblocking b E os (Kernel.start e0)).2.created
        = [(net_socket_nonblocking b E os (Kernel.start e0)).1] ∧
      (net_socket_nonblocking b E os (Kernel.start e0)).2.closed = [] := by
  have hres := (net_socket_nonblocking_result b E os (Kernel.start e0)).1
  generalize net_socket_nonblocking b E os (Kernel.start e0) = s at hres hok
  simp only [NET_SOCKET_OK, decide_eq_true_eq] at hok
  simp only [OpenResult, Kernel.start, List.nil_append] at hres
  rcases hres with ⟨_, h1, h2, _⟩ | ⟨h0, _⟩ | ⟨h0, _⟩
  · exact ⟨h1, h2⟩
  · omega
  · omega

/-! ## The claims about the socket setup, the hand-off and the connector results -/

/-- C11. Bind and listen errors are always fatal to socket setup: whenever the
socket was created and `bind` or `listen` fails, `_server_tcp_init` returns
`NET_INVALID_SOCKET` and has closed the socket it created exactly once (and
nothing else); it returns a valid descriptor only if address resolution,
socket creation, `bind` and `listen` all succeeded, and that descriptor is the
socket it created and has not been closed. -/
theorem server_init_bind_listen_fatal (b : Build) (E : Errno) (os : InitScript) (e0 : Int) :
    (os.getaddrinfo = 0 →
      NET_SOCKET_OK (net_socket_nonblocking b E os.socket (Kernel.start e0)).1 = true →
      (os.bind.ret < 0 ∨ os.listen.ret < 0) →
        (_server_tcp_init b E os (Kernel.start e0)).1 = NET_INVALID_SOCKET ∧
        (_server_tcp_init b E os (Kernel.start e0)).2.created
          = [(net_socket_nonblocking b E os.socket (Kernel.start e0)).1] ∧
        (_server_tcp_init b E os (Kernel.start e0)).2.closed
          = [(net_socket_nonblocking b E os.socket (Kernel.start e0)).1] ∧
        (_server_tcp_init b E os (Kernel.start e0)).2.closed.count
          (net_socket_nonblocking b E os.socket (Kernel.start e0)).1 = 1) ∧
    (NET_SOCKET_OK (_server_tcp_init b E os (Kernel.start e0)).1 = true →
      os.getaddrinfo = 0 ∧
      NET_SOCKET_OK (net_socket_nonblocking b E os.socket (Kernel.start e0)).1 = true ∧
      0 ≤ os.bind.ret ∧ 0 ≤ os.listen.ret ∧
      (_server_tcp_init b E os (Kernel.start e0)).1
        = (net_socket_nonblocking b E os.socket (Kernel.start e0)).1 ∧
      (_server_tcp_init b E os (Kernel.start e0)).1
        ∈ (_server_tcp_init b E os (Kernel.start e0)).2.created ∧
      (_server_tcp_init b E os (Kernel.start e0)).1
        ∉ (_server_tcp_init b E os (Kernel.start e0)).2.closed) := by
  obtain ⟨hv, hc, hcr⟩ := server_init_value b E os (Kernel.start e0)
  have hstart := net_socket_nonblocking_ok_start b E os.socket e0
  generalize _server_tcp_init b E os (Kernel.start e0) = r at hv hc hcr
  generalize net_socket_nonblocking b E os.socket (Kernel.start e0) = s at hv hc hcr hstart
  constructor
  · intro hg hok hfail
    obtain ⟨s1, s2⟩ := hstart hok
    simp only [hg, ne_eq, not_true_eq_false, if_false, hok, Bool.not_true,
      Bool.false_eq_true] at hv hc hcr
    have hv' : r.1 = NET_INVALID_SOCKET := by
      rw [hv]
      by_cases hb : os.bind.ret < 0
      · simp [hb]
      · have hl : os.listen.ret < 0 := by
          rcases hfail with h | h
          · exact absurd h hb
          · exact h
        simp [hb, hl]
    have hc' : r.2.closed = [s.1] := by
      rw [hc, s2]
      by_cases hb : os.bind.ret < 0
      · simp [hb]
      · have hl : os.listen.ret < 0 := by
          rcases hfail with h | h
          · exact absurd h hb
          · exact h
        simp [hb, hl]
    refine ⟨hv', by rw [hcr, s1], hc', ?_⟩
    rw [hc']
    simp
  · intro hrok
    by_cases hg : os.getaddrinfo = 0
    · by_cases hok : NET_SOCKET_OK s.1 = true
      · obtain ⟨s1, s2⟩ := hstart hok
        simp only [hg, ne_eq, not_true_eq_false, if_false, hok, Bool.not_true,
          Bool.false_eq_true] at hv hc hcr
        by_cases hb : os.bind.ret < 0
        · simp only [hb, if_true] at hv
          rw [hv] at hrok
          exact absurd hrok (by decide)
        · by_cases hl : os.listen.ret < 0
          · simp only [hb, hl, if_true, if_false] at hv
            rw [hv] at hrok
            exact absurd hrok (by decide)
          · simp only [hb, hl, if_false] at hv hc
            refine ⟨hg, hok, by omega, by omega, hv, ?_, ?_⟩
            · rw [hcr, s1, hv]; exact List.mem_cons_self _ _
            · rw [hc, s2]; exact List.not_mem_nil _
      · have hok' : NET_SOCKET_OK s.1 = false := by simpa using hok
        simp only [hg, ne_eq, not_true_eq_false, if_false, hok', Bool.not_false,
          if_true] at hv
        rw [hv] at hrok
        exact absurd hrok (by decide)
    · simp only [ne_eq, hg, not_false_eq_true, if_true] at hv
      rw [hv] at hrok
      exact absurd hrok (by decide)

/-- Witness of C11 on the Linux table: descriptor 5 is created, `bind` fails
with `EADDRINUSE` (98); the setup returns `NET_INVALID_SOCKET` and has closed
descriptor 5 once. -/
theorem server_init_bind_listen_fatal_witness :
    (_server_tcp_init ⟨true, true, true⟩ linux_errno
      ⟨0, ⟨⟨5, 0⟩, ⟨-1, 0⟩, ⟨0, 0⟩, ⟨2, 0⟩, ⟨0, 0⟩, ⟨0, 0⟩⟩, ⟨0, 0⟩, ⟨-1, 98⟩, ⟨0, 0⟩, ⟨0, 0⟩⟩
      (Kernel.start 0)).1 = NET_INVALID_SOCKET ∧
    (_server_tcp_init ⟨true, true, true⟩ linux_errno
      ⟨0, ⟨⟨5, 0⟩, ⟨-1, 0⟩, ⟨0, 0⟩, ⟨2, 0⟩, ⟨0, 0⟩, ⟨0, 0⟩⟩, ⟨0, 0⟩, ⟨-1, 98⟩, ⟨0, 0⟩, ⟨0, 0⟩⟩
      (Kernel.start 0)).2.closed = [5] :=
  have h := (server_init_bind_listen_fatal ⟨true, true, true⟩ linux_errno
    ⟨0, ⟨⟨5, 0⟩, ⟨-1, 0⟩, ⟨0, 0⟩, ⟨2, 0⟩, ⟨0, 0⟩, ⟨0, 0⟩⟩, ⟨0, 0⟩, ⟨-1, 98⟩, ⟨0, 0⟩, ⟨0, 0⟩⟩
    0).1 rfl (by decide) (Or.inl (by decide))
  ⟨h.1, h.2.2.1⟩

theorem push_loop_completes (fd : Int) (wakes : List ring) :
    ∀ rb : ring, (∃ s ∈ rb :: wakes, rb_isfull s = 0) →
      ∃ done, push_loop rb fd wakes = some done := by
  induction wakes with
  | nil =>
    intro rb h
    obtain ⟨s, hs, hf⟩ := h
    simp only [List.mem_singleton] at hs
    subst hs
    have h1 : (rb_enqueue s fd).1 = -1 := by rw [rb_enqueue_of_not_full s fd hf]
    exact ⟨((rb_enqueue s fd).2, 0), by simp [push_loop, h1]⟩
  | cons w ws ih =>
    intro rb h
    rcases rb_enqueue_ret_cases rb fd with ⟨h1, hfull⟩ | ⟨h1, _⟩
    · obtain ⟨s, hs, hf⟩ := h
      have hs' : s ∈ w :: ws := by
        rcases List.mem_cons.1 hs with e | e
        · subst e
          rw [hfull] at hf
          exact absurd hf (by decide)
        · exact e
      obtain ⟨done, hd⟩ := ih w ⟨s, hs', hf⟩
      exact ⟨(done.1, done.2 + 1), by simp [push_loop, h1, hd]⟩
    · exact ⟨((rb_enqueue rb fd).2, 0), by simp [push_loop, h1]⟩

theorem push_loop_earlier_full (fd : Int) (wakes : List ring) :
    ∀ (rb : ring) (done : ring × Nat), push_loop rb fd wakes = some done →
      ∀ (i : Nat) (u : ring), i < done.2 → (rb :: wakes)[i]? = some u →
        rb_isfull u = -1 ∧ rb_enqueue u fd = (0, u) := by
  induction wakes with
  | nil =>
    intro rb done h i u hi _
    rcases rb_enqueue_ret_cases rb fd with ⟨h1, _⟩ | ⟨h1, _⟩
    · simp [push_loop, h1] at h
    · simp only [push_loop, h1, ne_eq, not_true_eq_false, if_false, Option.some.injEq] at h
      subst h
      exact absurd hi (Nat.not_lt_zero i)
  | cons w ws ih =>
    intro rb done h i u hi hu
    rcases rb_enqueue_ret_cases rb fd with ⟨h1, hfull⟩ | ⟨h1, _⟩
    · simp only [push_loop, h1, ne_eq, show ¬ ((0 : Int) = -1) by decide,
        not_false_eq_true, if_true, Option.map_eq_some'] at h
      obtain ⟨r, hr, e⟩ := h
      subst e
      cases i with
      | zero =>
        simp only [List.getElem?_cons_zero, Option.some.injEq] at hu
        subst hu
        exact ⟨hfull, rb_enqueue_of_full _ fd hfull⟩
      | succ j =>
        simp only [List.getElem?_cons_succ] at hu
        exact ih w r hr j u (by simpa using hi) hu
    · simp only [push_loop, h1, ne_eq, not_true_eq_false, if_false, Option.some.injEq] at h
      subst h
      exact absurd hi (Nat.not_lt_zero i)

/-- C12 fails on the code.  On the Linux table, `accept4` returns the valid
descriptor 7 and the `setsockopt` of the reuse hardening fails with `EINVAL`:
the pass closes descriptor 7 and goes on with the next pass; nothing has been
pushed and the ring is as it was, still empty. -/
theorem acceptor_drops_on_failed_hardening :
    NET_SOCKET_OK (net_accept_nonblocking ⟨true, true, true⟩ linux_errno
      ⟨⟨7, 0⟩, ⟨-1, 0⟩, ⟨0, 0⟩, ⟨2, 0⟩, ⟨0, 0⟩, ⟨0, 0⟩⟩ (Kernel.start 0)).1 = true ∧
    _server_tcp_loop_body ⟨true, true, true⟩ linux_errno
        ⟨⟨⟨7, 0⟩, ⟨-1, 0⟩, ⟨0, 0⟩, ⟨2, 0⟩, ⟨0, 0⟩, ⟨0, 0⟩⟩, ⟨-1, 22⟩, ⟨0, 0⟩, []⟩
        ⟨Kernel.start 0, ⟨0, 1, List.replicate 256 0⟩, []⟩
      = (Ctl.next, ⟨⟨22, [7], [7], [7]⟩, ⟨0, 1, List.replicate 256 0⟩, []⟩) ∧
    rb_isempty ⟨0, 1, List.replicate 256 0⟩ = -1 :=
  ⟨by decide, rfl, by decide⟩

/-- C12, amended.  In every pass of the accept loop in which
`net_accept_nonblocking` returns a valid descriptor, the acceptor applies the
reuse hardening.  If the hardening succeeds the acceptor pushes the descriptor
onto the ring: when the push loop completes, the ring the pass leaves is the
result of one successful `rb_enqueue` of that descriptor, made on a ring that
was not full (the one found after the waits performed), every earlier attempt
having met a full ring and changed nothing, so that the ring stores what it
stored plus the descriptor at the end; the descriptor is pushed once and not
closed.  The push loop does complete when one of the rings it finds is not
full (otherwise the thread is still waiting, with nothing closed).  If the
hardening fails the acceptor closes the descriptor and goes on with the next
pass without pushing it, the ring being left as it was. -/
theorem acceptor_handoff (b : Build) (E : Errno) (os : PassScript) (st : Server) :
    (NET_SOCKET_OK (net_accept_nonblocking b E os.accept st.kernel).1 = true →
      ¬ (net_socket_make_reuseable_unix (net_accept_nonblocking b E os.accept st.kernel).2
          os.setsockopt).1 < 0 →
      (∀ done, push_loop st.rb (net_accept_nonblocking b E os.accept st.kernel).1 os.wakes
            = some done →
          (_server_tcp_loop_body b E os st).1 = Ctl.next ∧
          (_server_tcp_loop_body b E os st).2.rb = done.1 ∧
          (_server_tcp_loop_body b E os st).2.pushed
            = st.pushed ++ [(net_accept_nonblocking b E os.accept st.kernel).1] ∧
          ∃ s, (st.rb :: os.wakes)[done.2]? = some s ∧ rb_isfull s = 0 ∧
            rb_enqueue s (net_accept_nonblocking b E os.accept st.kernel).1
              = (-1, (_server_tcp_loop_body b E os st).2.rb) ∧
            (∀ (i : Nat) (u : ring), i < done.2 → (st.rb :: os.wakes)[i]? = some u →
              rb_isfull u = -1 ∧
              rb_enqueue u (net_accept_nonblocking b E os.accept st.kernel).1 = (0, u)) ∧
            (rb_inrange s → s.data.length = 256 →
              rb_contents (_server_tcp_loop_body b E os st).2.rb
                = rb_contents s ++ [(net_accept_nonblocking b E os.accept st.kernel).1])) ∧
      (push_loop st.rb (net_accept_nonblocking b E os.accept st.kernel).1 os.wakes = none →
          (_server_tcp_loop_body b E os st).1 = Ctl.waiting ∧
          (_server_tcp_loop_body b E os st).2.pushed = st.pushed) ∧
      ((∃ s ∈ st.rb :: os.wakes, rb_isfull s = 0) →
          (∃ done, push_loop st.rb (net_accept_nonblocking b E os.accept st.kernel).1 os.wakes
            = some done) ∧
          (_server_tcp_loop_body b E os st).1 = Ctl.next ∧
          ∃ s ∈ st.rb :: os.wakes, rb_isfull s = 0 ∧
            rb_enqueue s (net_accept_nonblocking b E os.accept st.kernel).1
              = (-1, (_server_tcp_loop_body b E os st).2.rb)) ∧
      (_server_tcp_loop_body b E os st).2.kernel.closed
        = (net_accept_nonblocking b E os.accept st.kernel).2.closed) ∧
    (NET_SOCKET_OK (net_accept_nonblocking b E os.accept st.kernel).1 = true →
      (net_socket_make_reuseable_unix (net_accept_nonblocking b E os.accept st.kernel).2
          os.setsockopt).1 < 0 →
      (_server_tcp_loop_body b E os st).1 = Ctl.next ∧
      (_server_tcp_loop_body b E os st).2.rb = st.rb ∧
      (_server_tcp_loop_body b E os st).2.pushed = st.pushed ∧
      (_server_tcp_loop_body b E os st).2.kernel.closed
        = (net_accept_nonblocking b E os.accept st.kernel).2.closed
          ++ [(net_accept_nonblocking b E os.accept st.kernel).1]) := by
  unfold _server_tcp_loop_body
  generalize net_accept_nonblocking b E os.accept st.kernel = a
  have hsame := make_reuseable_same a.2 os.setsockopt
  constructor
  · intro hok hr
    simp only [hok, Bool.not_true, Bool.false_eq_true, if_false, hr]
    have hdone : ∀ done, push_loop st.rb a.1 os.wakes = some done →
        ∃ s, (st.rb :: os.wakes)[done.2]? = some s ∧ rb_isfull s = 0 ∧
          rb_enqueue s a.1 = (-1, done.1) ∧
          (∀ (i : Nat) (u : ring), i < done.2 → (st.rb :: os.wakes)[i]? = some u →
            rb_isfull u = -1 ∧ rb_enqueue u a.1 = (0, u)) ∧
          (rb_inrange s → s.data.length = 256 → rb_contents done.1 = rb_contents s ++ [a.1]) := by
      intro done hd
      obtain ⟨s, hs, hnf, he⟩ := push_loop_done a.1 os.wakes st.rb done.1 done.2 hd
      refine ⟨s, hs, hnf, he, push_loop_earlier_full a.1 os.wakes st.rb done hd, ?_⟩
      intro hin hlen
      have hc := rb_contents_enqueue s a.1 hin hlen hnf
      rw [he] at hc
      exact hc
    refine ⟨?_, ?_, ?_, ?_⟩
    · intro done hd
      have hx := hdone done hd
      simp only [hd]
      exact ⟨trivial, trivial, trivial, hx⟩
    · intro hn
      simp [hn]
    · intro hroom
      obtain ⟨done, hd⟩ := push_loop_completes a.1 os.wakes st.rb hroom
      obtain ⟨s, hs, hnf, he, _⟩ := hdone done hd
      simp only [hd]
      exact ⟨⟨done, rfl⟩, trivial, s, List.getElem?_mem hs, hnf, he⟩
    · cases push_loop st.rb a.1 os.wakes <;> exact hsame.2.1
  · intro hok hr
    have hclose := net_close_effect (net_socket_make_reuseable_unix a.2 os.setsockopt).2 a.1
      os.close
    simp only [hok, Bool.not_true, Bool.false_eq_true, if_false, hr, if_true,
      net_socket_close]
    refine ⟨trivial, trivial, trivial, ?_⟩
    rw [hclose.2.1, hsame.2.1]

/-- Witness of C12 amended, on the Linux table: descriptor 7 is accepted and
hardened, the ring has room, and the ring the pass leaves is the result of
`rb_enqueue` of 7 on a ring that was not full; with a failed hardening the
descriptor is closed and not pushed. -/
theorem acceptor_handoff_witness :
    ((_server_tcp_loop_body ⟨true, true, true⟩ linux_errno
        ⟨⟨⟨7, 0⟩, ⟨-1, 0⟩, ⟨0, 0⟩, ⟨2, 0⟩, ⟨0, 0⟩, ⟨0, 0⟩⟩, ⟨0, 0⟩, ⟨0, 0⟩, []⟩
        ⟨Kernel.start 0, ⟨0, 1, List.replicate 256 0⟩, []⟩).2.pushed = [] ++ [7] ∧
      ∃ s, ((⟨0, 1, List.replicate 256 0⟩ : ring) :: [])[0]? = some s ∧ rb_isfull s = 0 ∧
        rb_enqueue s 7
          = (-1, (_server_tcp_loop_body ⟨true, true, true⟩ linux_errno
              ⟨⟨⟨7, 0⟩, ⟨-1, 0⟩, ⟨0, 0⟩, ⟨2, 0⟩, ⟨0, 0⟩, ⟨0, 0⟩⟩, ⟨0, 0⟩, ⟨0, 0⟩, []⟩
              ⟨Kernel.start 0, ⟨0, 1, List.replicate 256 0⟩, []⟩).2.rb)) ∧
    (_server_tcp_loop_body ⟨true, true, true⟩ linux_errno
        ⟨⟨⟨7, 0⟩, ⟨-1, 0⟩, ⟨0, 0⟩, ⟨2, 0⟩, ⟨0, 0⟩, ⟨0, 0⟩⟩, ⟨0, 0⟩, ⟨0, 0⟩, []⟩
        ⟨Kernel.start 0, ⟨0, 1, List.replicate 256 0⟩, []⟩).2.rb
      = ⟨0, 2, (List.replicate 256 0).set 0 7⟩ ∧
    (_server_tcp_loop_body ⟨true, true, true⟩ linux_errno
        ⟨⟨⟨7, 0⟩, ⟨-1, 0⟩, ⟨0, 0⟩, ⟨2, 0⟩, ⟨0, 0⟩, ⟨0, 0⟩⟩, ⟨-1, 22⟩, ⟨0, 0⟩, []⟩
        ⟨Kernel.start 0, ⟨0, 1, List.replicate 256 0⟩, []⟩).2.pushed = [] :=
  ⟨match ((acceptor_handoff ⟨true, true, true⟩ linux_errno
        ⟨⟨⟨7, 0⟩, ⟨-1, 0⟩, ⟨0, 0⟩, ⟨2, 0⟩, ⟨0, 0⟩, ⟨0, 0⟩⟩, ⟨0, 0⟩, ⟨0, 0⟩, []⟩
        ⟨Kernel.start 0, ⟨0, 1, List.replicate 256 0⟩, []⟩).1 (by decide) (by decide)).1
      (⟨0, 2, (List.replicate 256 0).set 0 7⟩, 0) rfl with
    | ⟨_, _, h3, s, h4, h5, h6, _⟩ => ⟨h3, s, h4, h5, h6⟩,
    rfl,
    ((acceptor_handoff ⟨true, true, true⟩ linux_errno
        ⟨⟨⟨7, 0⟩, ⟨-1, 0⟩, ⟨0, 0⟩, ⟨2, 0⟩, ⟨0, 0⟩, ⟨0, 0⟩⟩, ⟨-1, 22⟩, ⟨0, 0⟩, []⟩
        ⟨Kernel.start 0, ⟨0, 1, List.replicate 256 0⟩, []⟩).2 (by decide) (by decide)).2.2.1⟩

/-- C13. Reuse hardening is best-effort during setup (Unix branch): with every
other outcome fixed, `_server_tcp_init` and `_client_tcp_connect` return the
same descriptor and have created and closed the same sockets whatever the
outcome `o` of the `setsockopt` made by `net_socket_make_reuseable_unix`, be it
a success (`0`) or a failure (`-1`). -/
theorem reuse_hardening_best_effort (b : Build) (E : Errno) (k : Kernel)
    (osI : InitScript) (osC : ConnectScript) (o : Outcome) :
    ((_server_tcp_init b E { osI with setsockopt := o } k).1 = (_server_tcp_init b E osI k).1 ∧
      (_server_tcp_init b E { osI with setsockopt := o } k).2.closed
        = (_server_tcp_init b E osI k).2.closed ∧
      (_server_tcp_init b E { osI with setsockopt := o } k).2.created
        = (_server_tcp_init b E osI k).2.created) ∧
    ((_client_tcp_connect b E { osC with setsockopt := o } k).1
        = (_client_tcp_connect b E osC k).1 ∧
      (_client_tcp_connect b E { osC with setsockopt := o } k).2.closed
        = (_client_tcp_connect b E osC k).2.closed ∧
      (_client_tcp_connect b E { osC with setsockopt := o } k).2.created
        = (_client_tcp_connect b E osC k).2.created) ∧
    (net_socket_make_reuseable_unix k ⟨0, o.err⟩).1 = 0 ∧
    (net_socket_make_reuseable_unix k ⟨-1, o.err⟩).1 = -1 := by
  obtain ⟨i1, i2, i3⟩ := server_init_value b E { osI with setsockopt := o } k
  obtain ⟨j1, j2, j3⟩ := server_init_value b E osI k
  obtain ⟨c1, c2, c3⟩ := client_connect_value b E { osC with setsockopt := o } k
  obtain ⟨d1, d2, d3⟩ := client_connect_value b E osC k
  refine ⟨⟨?_, ?_, ?_⟩, ⟨?_, ?_, ?_⟩, ?_, ?_⟩
  · rw [i1, j1]
  · rw [i2, j2]
  · rw [i3, j3]
  · rw [c1, d1]
  · rw [c2, d2]
  · rw [c3, d3]
  · simp [net_socket_make_reuseable_unix, sys_plain]
  · simp [net_socket_make_reuseable_unix, sys_plain]

/-- C14 fails on the code.  On the Linux table, with descriptor 5 created, a
`connect` that completes immediately and a `connect` that fails with
`EINPROGRESS` (115) make `_client_tcp_connect` return the same value, 5. -/
theorem client_connect_pending_same_value :
    (_client_tcp_connect ⟨true, true, true⟩ linux_errno
      ⟨0, ⟨⟨5, 0⟩, ⟨-1, 0⟩, ⟨0, 0⟩, ⟨2, 0⟩, ⟨0, 0⟩, ⟨0, 0⟩⟩, ⟨0, 0⟩, ⟨0, 0⟩, ⟨0, 0⟩⟩
      (Kernel.start 0)).1 = 5 ∧
    (_client_tcp_connect ⟨true, true, true⟩ linux_errno
      ⟨0, ⟨⟨5, 0⟩, ⟨-1, 0⟩, ⟨0, 0⟩, ⟨2, 0⟩, ⟨0, 0⟩, ⟨0, 0⟩⟩, ⟨0, 0⟩, ⟨-1, 115⟩, ⟨0, 0⟩⟩
      (Kernel.start 0)).1 = 5 ∧
    NET_SOCKET_ERRNO_IS_CONN_EINPROGRESS linux_errno 115 = true := by
  decide

/-- C14, amended.  `_client_tcp_connect` yields two distinguishable results, the
created descriptor or `NET_INVALID_SOCKET`.  Once address resolution and socket
creation have succeeded, a `connect` that completed immediately and a `connect`
that failed with in-progress (`EINPROGRESS`) return the same value, the created
descriptor; any other `connect` error yields `NET_INVALID_SOCKET`, which is not
a valid descriptor. -/
theorem client_connect_two_results (b : Build) (E : Errno) (os : ConnectScript) (k : Kernel)
    (hg : os.getaddrinfo = 0)
    (hok : NET_SOCKET_OK (net_socket_nonblocking b E os.socket k).1 = true) :
    (∀ done pending : Outcome, 0 ≤ done.ret → pending.ret < 0 → pending.err = E.EINPROGRESS →
      (_client_tcp_connect b E { os with connect := done } k).1
        = (_client_tcp_connect b E { os with connect := pending } k).1) ∧
    (0 ≤ os.connect.ret →
      (_client_tcp_connect b E os k).1 = (net_socket_nonblocking b E os.socket k).1) ∧
    (os.connect.ret < 0 → os.connect.err = E.EINPROGRESS →
      (_client_tcp_connect b E os k).1 = (net_socket_nonblocking b E os.socket k).1) ∧
    (os.connect.ret < 0 → os.connect.err ≠ E.EINPROGRESS →
      (_client_tcp_connect b E os k).1 = NET_INVALID_SOCKET) ∧
    NET_SOCKET_OK NET_INVALID_SOCKET = false := by
  have hval : ∀ c : Outcome, (_client_tcp_connect b E { os with connect := c } k).1 =
      if c.ret < 0 then
        if !NET_SOCKET_ERRNO_IS_CONN_EINPROGRESS E c.err then NET_INVALID_SOCKET
        else (net_socket_nonblocking b E os.socket k).1
      else (net_socket_nonblocking b E os.socket k).1 := by
    intro c
    rw [(client_connect_value b E { os with connect := c } k).1]
    simp only [hg, ne_eq, not_true_eq_false, if_false, hok, Bool.not_true, Bool.false_eq_true]
  have hprog : ∀ e : Int, NET_SOCKET_ERRNO_IS_CONN_EINPROGRESS E e = true ↔ e = E.EINPROGRESS := by
    intro e
    simp [NET_SOCKET_ERRNO_IS_CONN_EINPROGRESS]
  have hself := hval os.connect
  have hsame : ({ os with connect := os.connect } : ConnectScript) = os := rfl
  rw [hsame] at hself
  refine ⟨?_, ?_, ?_, ?_, by decide⟩
  · intro done pending hd hp he
    rw [hval done, hval pending]
    have hd' : ¬ done.ret < 0 := by omega
    simp [hd', hp, (hprog pending.err).2 he]
  · intro hc
    rw [hself]
    have hc' : ¬ os.connect.ret < 0 := by omega
    simp [hc']
  · intro hc he
    rw [hself]
    simp [hc, (hprog os.connect.err).2 he]
  · intro hc he
    rw [hself]
    have hn : NET_SOCKET_ERRNO_IS_CONN_EINPROGRESS E os.connect.err = false := by
      rcases hb : NET_SOCKET_ERRNO_IS_CONN_EINPROGRESS E os.connect.err with _ | _
      · rfl
      · exact absurd ((hprog _).1 hb) he
    simp [hc, hn]

/-- Witness of C14 amended, on the Linux table with descriptor 5 created: the
result for an immediate `connect` equals the result for a pending one, and
`ECONNREFUSED` (111) gives `NET_INVALID_SOCKET`. -/
theorem client_connect_two_results_witness :
    (_client_tcp_connect ⟨true, true, true⟩ linux_errno
      { ( ⟨0, ⟨⟨5, 0⟩, ⟨-1, 0⟩, ⟨0, 0⟩, ⟨2, 0⟩, ⟨0, 0⟩, ⟨0, 0⟩⟩, ⟨0, 0⟩, ⟨-1, 111⟩, ⟨0, 0⟩⟩
          : ConnectScript) with connect := ⟨0, 0⟩ } (Kernel.start 0)).1
      = (_client_tcp_connect ⟨true, true, true⟩ linux_errno
        { ( ⟨0, ⟨⟨5, 0⟩, ⟨-1, 0⟩, ⟨0, 0⟩, ⟨2, 0⟩, ⟨0, 0⟩, ⟨0, 0⟩⟩, ⟨0, 0⟩, ⟨-1, 111⟩, ⟨0, 0⟩⟩
            : ConnectScript) with connect := ⟨-1, 115⟩ } (Kernel.start 0)).1 ∧
    (_client_tcp_connect ⟨true, true, true⟩ linux_errno
      ⟨0, ⟨⟨5, 0⟩, ⟨-1, 0⟩, ⟨0, 0⟩, ⟨2, 0⟩, ⟨0, 0⟩, ⟨0, 0⟩⟩, ⟨0, 0⟩, ⟨-1, 111⟩, ⟨0, 0⟩⟩
      (Kernel.start 0)).1 = NET_INVALID_SOCKET :=
  have h := client_connect_two_results ⟨true, true, true⟩ linux_errno
    ⟨0, ⟨⟨5, 0⟩, ⟨-1, 0⟩, ⟨0, 0⟩, ⟨2, 0⟩, ⟨0, 0⟩, ⟨0, 0⟩⟩, ⟨0, 0⟩, ⟨-1, 111⟩, ⟨0, 0⟩⟩
    (Kernel.start 0) rfl (by decide)
  ⟨h.1 ⟨0, 0⟩ ⟨-1, 115⟩ (by decide) (by decide) rfl, h.2.2.2.1 (by decide) (by decide)⟩

/-! ## Properties of the wait loops -/

theorem rb_dequeue_ret_ne (rb : ring) (h : (rb_dequeue rb).1 ≠ -1) : rb_isempty rb = 0 := by
  rcases rb_isempty_cases rb with he | he
  · rw [rb_dequeue_of_empty rb he] at h
    exact absurd rfl h
  · exact he

theorem pop_loop_done (wakes : List ring) :
    ∀ (rb : ring) (got : Int × ring × Nat), pop_loop rb wakes = some got →
      ∃ s, (rb :: wakes)[got.2.2]? = some s ∧ rb_isempty s = 0 ∧
        (rb_dequeue s).1 ≠ -1 ∧ got.1 = (rb_dequeue s).1 ∧ got.2.1 = (rb_dequeue s).2 ∧
        (∀ i u, i < got.2.2 → (rb :: wakes)[i]? = some u → (rb_dequeue u).1 = -1) := by
  induction wakes with
  | nil =>
    intro rb got h
    by_cases h1 : (rb_dequeue rb).1 = -1
    · simp [pop_loop, h1] at h
    · simp only [pop_loop, h1, if_false, Option.some.injEq] at h
      subst h
      exact ⟨rb, by simp, rb_dequeue_ret_ne rb h1, h1, rfl, rfl,
        fun i u hi _ => absurd hi (Nat.not_lt_zero i)⟩
  | cons w ws ih =>
    intro rb got h
    by_cases h1 : (rb_dequeue rb).1 = -1
    · simp only [pop_loop, h1, if_true, Option.map_eq_some'] at h
      obtain ⟨r, hr, e⟩ := h
      subst e
      obtain ⟨s, hs, hne, hret, e1, e2, hprev⟩ := ih w r hr
      refine ⟨s, by simpa using hs, hne, hret, e1, e2, ?_⟩
      intro i u hi hu
      cases i with
      | zero =>
        simp only [List.getElem?_cons_zero, Option.some.injEq] at hu
        subst hu
        exact h1
      | succ j =>
        simp only [List.getElem?_cons_succ] at hu
        exact hprev j u (by simpa using hi) hu
    · simp only [pop_loop, h1, if_false, Option.some.injEq] at h
      subst h
      exact ⟨rb, by simp, rb_dequeue_ret_ne rb h1, h1, rfl, rfl,
        fun i u hi _ => absurd hi (Nat.not_lt_zero i)⟩

theorem pop_loop_completes (wakes : List ring) :
    ∀ rb : ring, (∃ s ∈ rb :: wakes, (rb_dequeue s).1 ≠ -1) →
      ∃ got, pop_loop rb wakes = some got := by
  induction wakes with
  | nil =>
    intro rb h
    obtain ⟨s, hs, hne⟩ := h
    simp only [List.mem_singleton] at hs
    subst hs
    exact ⟨((rb_dequeue s).1, (rb_dequeue s).2, 0), by simp [pop_loop, hne]⟩
  | cons w ws ih =>
    intro rb h
    by_cases h1 : (rb_dequeue rb).1 = -1
    · obtain ⟨s, hs, hne⟩ := h
      have hs' : s ∈ w :: ws := by
        rcases List.mem_cons.1 hs with e | e
        · subst e
          exact absurd h1 hne
        · exact e
      obtain ⟨got, hg⟩ := ih w ⟨s, hs', hne⟩
      exact ⟨(got.1, got.2.1, got.2.2 + 1), by simp [pop_loop, h1, hg]⟩
    · exact ⟨((rb_dequeue rb).1, (rb_dequeue rb).2, 0), by simp [pop_loop, h1]⟩

theorem sys_close_effect (k : Kernel) (fd : Int) (o : Outcome) :
    (sys_close k fd o).2.created = k.created ∧
    (sys_close k fd o).2.closed = k.closed ++ [fd] ∧
    (sys_close k fd o).2.nonblocking = k.nonblocking := by
  unfold sys_close
  by_cases h : o.ret = 0 <;> simp [h]

theorem worker_body_done (os : WorkerScript) (st st' : Worker)
    (h : _server_tcp_nonblocking_worker_body os st = some st') :
    ∃ (n : Nat) (s : ring), (st.rb :: os.wakes)[n]? = some s ∧ rb_isempty s = 0 ∧
      (rb_dequeue s).1 ≠ -1 ∧ st'.rb = (rb_dequeue s).2 ∧
      (∀ i u, i < n → (st.rb :: os.wakes)[i]? = some u → (rb_dequeue u).1 = -1) ∧
      st'.handled = st.handled ++ [(rb_dequeue s).1] ∧
      st'.kernel.closed = st.kernel.closed ++ [(rb_dequeue s).1] ∧
      st'.kernel.created = st.kernel.created := by
  unfold _server_tcp_nonblocking_worker_body at h
  cases hp : pop_loop st.rb os.wakes with
  | none => simp [hp] at h
  | some got =>
    simp only [hp, Option.some.injEq] at h
    obtain ⟨s, hs, hne, hret, e1, e2, hprev⟩ := pop_loop_done os.wakes st.rb got hp
    have hclose := sys_close_effect st.kernel got.1 os.close
    subst h
    refine ⟨got.2.2, s, hs, hne, hret, e2, hprev, ?_, ?_, ?_⟩
    · simp only [e1]
    · rw [← e1]; exact hclose.2.1
    · exact hclose.1

theorem worker_run_done (passes : List (ring × WorkerScript)) :
    ∀ st st' : Worker, worker_run st passes = some st' →
      ∃ fds : List Int, fds.length = passes.length ∧
        st'.handled = st.handled ++ fds ∧
        st'.kernel.closed = st.kernel.closed ++ fds ∧
        (∀ fd ∈ fds, fd ≠ -1) := by
  induction passes with
  | nil =>
    intro st st' h
    simp only [worker_run, Option.some.injEq] at h
    subst h
    exact ⟨[], rfl, by simp, by simp, by simp⟩
  | cons p rest ih =>
    intro st st' h
    simp only [worker_run] at h
    cases hb : _server_tcp_nonblocking_worker_body p.2 { st with rb := p.1 } with
    | none => simp [hb] at h
    | some mid =>
      simp only [hb] at h
      obtain ⟨_, s, _, _, hret, _, _, h1, h2, _⟩ := worker_body_done p.2 _ mid hb
      obtain ⟨fds, hl, h3, h4, h5⟩ := ih mid st' h
      refine ⟨(rb_dequeue s).1 :: fds, by simp [hl], ?_, ?_, ?_⟩
      · rw [h3, h1]; simp
      · rw [h4, h2]; simp
      · intro fd hfd
        rcases List.mem_cons.1 hfd with e | e
        · rw [e]; exact hret
        · exact h5 fd e

/-! ## The claims about the worker and the wait loops -/

/-- C15. Each dequeued connection is closed exactly once by its worker.  A pass
of the loop of `_server_tcp_nonblocking_worker` completes as soon as one of
the rings it finds yields a value other than `-1`.  When it completes, exactly
one `rb_dequeue` call of the pass was successful: it was made on a ring that
was not empty, after `n` waits, and every earlier call of the pass returned
`-1`; the handle it returned was removed from the ring, and `close` was called
exactly once, on that handle, while no other descriptor was closed.  Over
successive passes the descriptors closed are exactly the handles obtained, one
per pass and in the same order. -/
theorem worker_closes_each_handle_once (os : WorkerScript) (st : Worker) :
    ((∃ s ∈ st.rb :: os.wakes, (rb_dequeue s).1 ≠ -1) →
      ∃ st', _server_tcp_nonblocking_worker_body os st = some st') ∧
    (∀ st', _server_tcp_nonblocking_worker_body os st = some st' →
      ∃ (n : Nat) (s : ring), (st.rb :: os.wakes)[n]? = some s ∧ rb_isempty s = 0 ∧
        (rb_dequeue s).1 ≠ -1 ∧ st'.rb = (rb_dequeue s).2 ∧
        (∀ i u, i < n → (st.rb :: os.wakes)[i]? = some u → (rb_dequeue u).1 = -1) ∧
        (rb_inrange s → rb_contents s = (rb_dequeue s).1 :: rb_contents st'.rb) ∧
        st'.handled = st.handled ++ [(rb_dequeue s).1] ∧
        st'.kernel.closed = st.kernel.closed ++ [(rb_dequeue s).1] ∧
        st'.kernel.created = st.kernel.created) ∧
    (∀ passes st', worker_run st passes = some st' →
      ∃ fds : List Int, fds.length = passes.length ∧
        st'.handled = st.handled ++ fds ∧
        st'.kernel.closed = st.kernel.closed ++ fds) := by
  refine ⟨?_, ?_, ?_⟩
  · intro h
    obtain ⟨got, hg⟩ := pop_loop_completes os.wakes st.rb h
    exact ⟨{ kernel := (sys_close st.kernel got.1 os.close).2, rb := got.2.1,
             handled := st.handled ++ [got.1] },
      by simp [_server_tcp_nonblocking_worker_body, hg]⟩
  · intro st' h
    obtain ⟨n, s, hs, hne, hret, hrb, hprev, h1, h2, h3⟩ := worker_body_done os st st' h
    refine ⟨n, s, hs, hne, hret, hrb, hprev, ?_, h1, h2, h3⟩
    intro hin
    rw [hrb]
    exact rb_contents_dequeue s hin hne
  · intro passes st' h
    obtain ⟨fds, h1, h2, h3, _⟩ := worker_run_done passes st st' h
    exact ⟨fds, h1, h2, h3⟩

/-- Witness of C15: the worker finds the ring empty, waits, and at its wake-up
finds descriptor 7 at the head; it closes 7 and nothing else. -/
theorem worker_closes_each_handle_once_witness :
    _server_tcp_nonblocking_worker_body
        ⟨[⟨0, 2, (List.replicate 256 0).set 0 7⟩], ⟨0, 0⟩⟩
        ⟨Kernel.start 0, ⟨0, 1, List.replicate 256 0⟩, []⟩
      = some ⟨⟨0, [], [7], []⟩, ⟨1, 2, (List.replicate 256 0).set 0 7⟩, [7]⟩ ∧
    (∃ (n : Nat) (s : ring), ((⟨0, 1, List.replicate 256 0⟩ : ring)
          :: [⟨0, 2, (List.replicate 256 0).set 0 7⟩])[n]? = some s ∧
        rb_isempty s = 0 ∧ (rb_dequeue s).1 ≠ -1 ∧
        (⟨⟨0, [], [7], []⟩, ⟨1, 2, (List.replicate 256 0).set 0 7⟩, [7]⟩ : Worker).kernel.closed
          = (Kernel.start 0).closed ++ [(rb_dequeue s).1]) :=
  ⟨rfl,
    match (worker_closes_each_handle_once
        ⟨[⟨0, 2, (List.replicate 256 0).set 0 7⟩], ⟨0, 0⟩⟩
        ⟨Kernel.start 0, ⟨0, 1, List.replicate 256 0⟩, []⟩).2.1
        ⟨⟨0, [], [7], []⟩, ⟨1, 2, (List.replicate 256 0).set 0 7⟩, [7]⟩ rfl with
    | ⟨n, s, h1, h2, h3, _, _, _, _, h4, _⟩ => ⟨n, s, h1, h2, h3, h4⟩⟩

/-! ## Properties of the capacity -/

theorem rb_fill_rets (vs : List Int) :
    ∀ rb : ring, rb_inrange rb →
      (rb_trace rb (vs.map Call.enqueue)).map Step.ret
        = List.replicate (min vs.length (255 - rb_count rb).toNat) (-1)
          ++ List.replicate (vs.length - (255 - rb_count rb).toNat) 0 := by
  induction vs with
  | nil => intro rb _; simp [rb_trace]
  | cons v vs ih =>
    intro rb h
    have hr := rb_count_range rb
    simp only [rb_capacity, BUFFER_LENGTH] at hr
    rcases rb_isfull_cases rb with hf | hf
    · have hc := (rb_isfull_count rb h).1 hf
      simp only [rb_capacity, BUFFER_LENGTH] at hc
      have ih1 := ih rb h
      have h0 : (255 - rb_count rb).toNat = 0 := by omega
      rw [h0] at ih1 ⊢
      simp only [List.map_cons, rb_trace, rb_call, rb_enqueue_of_full rb v hf, ih1]
      simp [List.replicate_succ]
    · have hc := rb_count_enqueue rb v h hf
      have hnf : rb_count rb ≠ 255 := by
        intro hcon
        have := (rb_isfull_count rb h).2 (by simp only [rb_capacity, BUFFER_LENGTH]; omega)
        rw [this] at hf
        exact absurd hf (by decide)
      have hin := rb_inrange_call rb (Call.enqueue v) h
      simp only [rb_call] at hin
      have ih1 := ih _ hin
      have hfree : (255 - rb_count rb).toNat = (255 - rb_count (rb_enqueue rb v).2).toNat + 1 := by
        omega
      rw [hfree]
      simp only [List.map_cons, rb_trace, rb_call, ih1, List.length_cons,
        Nat.succ_min_succ, Nat.succ_sub_succ, List.replicate_succ, List.cons_append]
      rw [rb_enqueue_of_not_full rb v hf]

theorem rb_contents_length (rb : ring) : ((rb_contents rb).length : Int) = rb_count rb := by
  have hr := rb_count_range rb
  simp only [rb_contents, List.length_map, List.length_range]
  omega

/-- C18. Usable capacity is fixed at `BUFFER_LENGTH - 1 = 255`: on the ring
returned by `rb_create`, of any number of consecutive `rb_enqueue` calls the
first 255 succeed (return `-1`) and all later ones fail (return `0`), so of 256
calls exactly the first 255 succeed and the 256th fails; and in every
reachable state `rb_enqueue` succeeds iff fewer than 255 values are stored. -/
theorem rb_usable_capacity (block : Option (List Int)) (rb : ring)
    (hcreate : rb_create block = some rb) :
    rb_capacity = BUFFER_LENGTH - 1 ∧
    (∀ vs : List Int,
      (rb_trace rb (vs.map Call.enqueue)).map Step.ret
        = List.replicate (min vs.length 255) (-1) ++ List.replicate (vs.length - 255) 0) ∧
    (∀ vs : List Int, vs.length = 256 →
      (rb_trace rb (vs.map Call.enqueue)).map Step.ret = List.replicate 255 (-1) ++ [0]) ∧
    (∀ (calls : List Call) (v : Int),
      ((rb_enqueue (rb_run rb calls) v).1 = -1 ↔ (rb_contents (rb_run rb calls)).length < 255) ∧
      ((rb_enqueue (rb_run rb calls) v).1 = 0 ↔ (rb_contents (rb_run rb calls)).length = 255) ∧
      ((rb_contents (rb_run rb calls)).length : Int)
        = ((enqueued (rb_trace rb calls)).length : Int) - (removals (rb_trace rb calls) : Int)) := by
  obtain ⟨hin, h0⟩ := rb_create_inrange block rb hcreate
  have hfill : ∀ vs : List Int,
      (rb_trace rb (vs.map Call.enqueue)).map Step.ret
        = List.replicate (min vs.length 255) (-1) ++ List.replicate (vs.length - 255) 0 := by
    intro vs
    have h := rb_fill_rets vs rb hin
    rw [h0] at h
    exact h
  refine ⟨rfl, hfill, ?_, ?_⟩
  · intro vs hlen
    rw [hfill vs, hlen]
    rfl
  · intro calls v
    have hrun := rb_inrange_run calls rb hin
    have hcnt := rb_count_run calls rb hin
    have hlen := rb_contents_length (rb_run rb calls)
    have hr := rb_count_range (rb_run rb calls)
    have hfull := rb_isfull_count (rb_run rb calls) hrun
    simp only [rb_capacity, BUFFER_LENGTH] at hr hfull
    refine ⟨?_, ?_, by omega⟩
    · rcases rb_enqueue_ret_cases (rb_run rb calls) v with ⟨h1, h2⟩ | ⟨h1, h2⟩
      · have := hfull.1 h2
        rw [h1]
        constructor
        · intro h; exact absurd h (by decide)
        · intro h; omega
      · have hne : rb_count (rb_run rb calls) ≠ 255 := by
          intro hcon
          rw [hfull.2 hcon] at h2
          exact absurd h2 (by decide)
        rw [h1]
        constructor
        · intro _; omega
        · intro _; rfl
    · rcases rb_enqueue_ret_cases (rb_run rb calls) v with ⟨h1, h2⟩ | ⟨h1, h2⟩
      · have := hfull.1 h2
        rw [h1]
        constructor
        · intro _; omega
        · intro _; rfl
      · have hne : rb_count (rb_run rb calls) ≠ 255 := by
          intro hcon
          rw [hfull.2 hcon] at h2
          exact absurd h2 (by decide)
        rw [h1]
        constructor
        · intro h; exact absurd h (by decide)
        · intro h; omega

/-- Witness of C18: on a fresh ring of 256 zeroed slots, 256 pushes give 255
times `-1` and then `0`. -/
theorem rb_usable_capacity_witness :
    rb_create (some (List.replicate 256 0)) = some ⟨0, 1, List.replicate 256 0⟩ ∧
    (rb_trace ⟨0, 1, List.replicate 256 0⟩
        ((List.replicate 256 3).map Call.enqueue)).map Step.ret
      = List.replicate 255 (-1) ++ [0] :=
  ⟨rfl, (rb_usable_capacity (some (List.replicate 256 0)) ⟨0, 1, List.replicate 256 0⟩
    rfl).2.2.1 (List.replicate 256 3) (List.length_replicate _ _)⟩

/-! ## The push and pop loops against the standard pattern -/

theorem push_loop_eq_std (fd : Int) (wakes : List ring) :
    ∀ rb : ring, push_loop rb fd wakes = std_push_loop rb fd wakes := by
  induction wakes with
  | nil =>
    intro rb
    rcases rb_enqueue_ret_cases rb fd with ⟨h1, h2⟩ | ⟨h1, h2⟩
    · simp [push_loop, std_push_loop, h1, h2]
    · simp [push_loop, std_push_loop, h1, h2]
  | cons w ws ih =>
    intro rb
    rcases rb_enqueue_ret_cases rb fd with ⟨h1, h2⟩ | ⟨h1, h2⟩
    · simp [push_loop, std_push_loop, h1, h2, ih w]
    · simp [push_loop, std_push_loop, h1, h2]

/-- C19. The acceptor's push follows the standard pattern: over every list of
rings found at the wake-ups, the loop `while (rb_enqueue(rb, fd) != -1) wait`
of `_server_tcp_loop` and the standard loop
`while (rb_isfull(rb)) wait; rb_enqueue(rb, fd)` give the same result, that is
the same number of waits and the same final ring (or both are still waiting);
and when they complete the value was inserted exactly once: every earlier
attempt met a full ring and left it unchanged, and the last one is a single
successful `rb_enqueue`, which appends the value to what the ring stores. -/
theorem push_follows_standard_pattern (rb : ring) (fd : Int) (wakes : List ring) :
    push_loop rb fd wakes = std_push_loop rb fd wakes ∧
    (∀ done, push_loop rb fd wakes = some done →
      ∃ s, (rb :: wakes)[done.2]? = some s ∧ rb_isfull s = 0 ∧
        rb_enqueue s fd = (-1, done.1) ∧
        (∀ (i : Nat) (u : ring), i < done.2 → (rb :: wakes)[i]? = some u →
          rb_isfull u = -1 ∧ rb_enqueue u fd = (0, u)) ∧
        (rb_inrange s → s.data.length = 256 →
          rb_contents done.1 = rb_contents s ++ [fd])) := by
  refine ⟨push_loop_eq_std fd wakes rb, ?_⟩
  intro done h
  obtain ⟨s, hs, hnf, he⟩ := push_loop_done fd wakes rb done.1 done.2 h
  refine ⟨s, hs, hnf, he, push_loop_earlier_full fd wakes rb done h, ?_⟩
  intro hin hlen
  have := rb_contents_enqueue s fd hin hlen hnf
  rw [he] at this
  exact this

/-- Witness of C19: the ring is full at the start and at the first wake-up,
and has room at the second; both loops insert after two waits. -/
theorem push_follows_standard_pattern_witness :
    push_loop ⟨3, 3, List.replicate 256 0⟩ 9
        [⟨3, 3, List.replicate 256 0⟩, ⟨4, 3, List.replicate 256 0⟩]
      = some (⟨4, 4, (List.replicate 256 0).set 2 9⟩, 2) ∧
    (∃ s, ((⟨3, 3, List.replicate 256 0⟩ : ring)
          :: [⟨3, 3, List.replicate 256 0⟩, ⟨4, 3, List.replicate 256 0⟩])[2]? = some s ∧
        rb_isfull s = 0 ∧
        rb_enqueue s 9 = (-1, ⟨4, 4, (List.replicate 256 0).set 2 9⟩)) :=
  ⟨rfl,
    match (push_follows_standard_pattern ⟨3, 3, List.replicate 256 0⟩ 9
        [⟨3, 3, List.replicate 256 0⟩, ⟨4, 3, List.replicate 256 0⟩]).2
        (⟨4, 4, (List.replicate 256 0).set 2 9⟩, 2) rfl with
    | ⟨s, h1, h2, h3, _⟩ => ⟨s, h1, h2, h3⟩⟩

/-- C20. Wait-recheck discipline, over every list of rings found at the
wake-ups.  A worker leaves its wait loop only with a value returned by a
successful `rb_dequeue` made on a ring that was not empty; the acceptor leaves
its wait loop only after a successful `rb_enqueue` made on a ring that was not
full.  A wake-up at which the predicate is false (the ring is full for the
acceptor, empty for the worker) leaves the ring unchanged and does not end the
loop: the thread waits again, or is still waiting if it was the last wake-up. -/
theorem wait_recheck_discipline (rb : ring) (fd : Int) (wakes : List ring) :
    (∀ got, pop_loop rb wakes = some got →
      ∃ s, (rb :: wakes)[got.2.2]? = some s ∧ rb_isempty s = 0 ∧
        got.1 ≠ -1 ∧ rb_dequeue s = (got.1, got.2.1)) ∧
    (∀ done, push_loop rb fd wakes = some done →
      ∃ s, (rb :: wakes)[done.2]? = some s ∧ rb_isfull s = 0 ∧
        rb_enqueue s fd = (-1, done.1)) ∧
    (rb_isfull rb = -1 →
      rb_enqueue rb fd = (0, rb) ∧ push_loop rb fd [] = none ∧
      ∀ w ws, push_loop rb fd (w :: ws)
        = (push_loop w fd ws).map (fun r => (r.1, r.2 + 1))) ∧
    (rb_isempty rb = -1 →
      rb_dequeue rb = (-1, rb) ∧ pop_loop rb [] = none ∧
      ∀ w ws, pop_loop rb (w :: ws)
        = (pop_loop w ws).map (fun r => (r.1, r.2.1, r.2.2 + 1))) := by
  refine ⟨?_, ?_, ?_, ?_⟩
  · intro got h
    obtain ⟨s, hs, hne, hret, e1, e2, _⟩ := pop_loop_done wakes rb got h
    refine ⟨s, hs, hne, by rw [e1]; exact hret, ?_⟩
    rw [e1, e2]
  · intro done h
    exact push_loop_done fd wakes rb done.1 done.2 h
  · intro hf
    have he := rb_enqueue_of_full rb fd hf
    refine ⟨he, by simp [push_loop, he], fun w ws => by simp [push_loop, he]⟩
  · intro hemp
    have he := rb_dequeue_of_empty rb hemp
    refine ⟨he, by simp [pop_loop, he], fun w ws => by simp [pop_loop, he]⟩

/-- Witness of C20: an empty ring, one spurious wake-up that finds it still
empty, then a wake-up that finds descriptor 7. -/
theorem wait_recheck_discipline_witness :
    rb_isempty ⟨0, 1, List.replicate 256 0⟩ = -1 ∧
    pop_loop ⟨0, 1, List.replicate 256 0⟩
        [⟨0, 1, List.replicate 256 0⟩, ⟨0, 2, (List.replicate 256 0).set 0 7⟩]
      = some (7, ⟨1, 2, (List.replicate 256 0).set 0 7⟩, 2) ∧
    rb_dequeue ⟨0, 1, List.replicate 256 0⟩ = (-1, ⟨0, 1, List.replicate 256 0⟩) ∧
    (∃ s, ((⟨0, 1, List.replicate 256 0⟩ : ring)
          :: [⟨0, 1, List.replicate 256 0⟩, ⟨0, 2, (List.replicate 256 0).set 0 7⟩])[2]?
          = some s ∧ rb_isempty s = 0) :=
  ⟨rfl, rfl,
    ((wait_recheck_discipline ⟨0, 1, List.replicate 256 0⟩ 0
      [⟨0, 1, List.replicate 256 0⟩, ⟨0, 2, (List.replicate 256 0).set 0 7⟩]).2.2.2 rfl).1,
    match (wait_recheck_discipline ⟨0, 1, List.replicate 256 0⟩ 0
        [⟨0, 1, List.replicate 256 0⟩, ⟨0, 2, (List.replicate 256 0).set 0 7⟩]).1
        (7, ⟨1, 2, (List.replicate 256 0).set 0 7⟩, 2) rfl with
    | ⟨s, h1, h2, _⟩ => ⟨s, h1, h2⟩⟩

/-! ## Properties of the ring with the buffer length as a parameter -/

theorem tmod_len (a N : Int) (ha : 0 ≤ a) (hN : 0 < N) : a.tmod N = a % N :=
  Int.tmod_eq_emod ha (Int.le_of_lt hN)

theorem rb_isempty_len_iff (N : Int) (rb : ring) :
    rb_isempty_len N rb = -1 ↔ rb.tail = (rb.head + 1).tmod N := by
  unfold rb_isempty_len; split <;> simp [*]

theorem rb_inrange_len_enqueue (N : Int) (hN : 0 < N) (rb : ring) (v : Int)
    (h : rb_inrange_len N rb) : rb_inrange_len N (rb_enqueue_len N rb v).2 := by
  obtain ⟨h1, h2, h3, h4⟩ := h
  unfold rb_enqueue_len
  split
  · exact ⟨h1, h2, h3, h4⟩
  · refine ⟨h1, h2, ?_, ?_⟩
    · show 0 ≤ (rb.tail + 1).tmod N
      rw [tmod_len _ N (by omega) hN]
      exact Int.emod_nonneg _ (by omega)
    · show (rb.tail + 1).tmod N < N
      rw [tmod_len _ N (by omega) hN]
      exact Int.emod_lt_of_pos _ hN

theorem rb_inrange_len_dequeue (N : Int) (hN : 0 < N) (rb : ring)
    (h : rb_inrange_len N rb) : rb_inrange_len N (rb_dequeue_len N rb).2 := by
  obtain ⟨h1, h2, h3, h4⟩ := h
  unfold rb_dequeue_len
  split
  · exact ⟨h1, h2, h3, h4⟩
  · refine ⟨?_, ?_, h3, h4⟩
    · show 0 ≤ (rb.head + 1).tmod N
      rw [tmod_len _ N (by omega) hN]
      exact Int.emod_nonneg _ (by omega)
    · show (rb.head + 1).tmod N < N
      rw [tmod_len _ N (by omega) hN]
      exact Int.emod_lt_of_pos _ hN

theorem rb_inrange_len_run (N : Int) (hN : 0 < N) (calls : List Call) :
    ∀ rb : ring, rb_inrange_len N rb → rb_inrange_len N (rb_run_len N rb calls) := by
  induction calls with
  | nil => intro rb h; exact h
  | cons c cs ih =>
    intro rb h
    cases c with
    | enqueue v => exact ih _ (rb_inrange_len_enqueue N hN rb v h)
    | dequeue => exact ih _ (rb_inrange_len_dequeue N hN rb h)

theorem rb_not_full_and_empty (N : Int) (hN : 2 ≤ N) (rb : ring) (h : rb_inrange_len N rb) :
    ¬ (rb_isfull rb = -1 ∧ rb_isempty_len N rb = -1) := by
  obtain ⟨h1, h2, _, _⟩ := h
  rintro ⟨hf, he⟩
  have e1 := (rb_isfull_iff rb).1 hf
  have e2 := (rb_isempty_len_iff N rb).1 he
  rw [tmod_len _ N (by omega) (by omega)] at e2
  by_cases hlt : rb.head + 1 < N
  · rw [Int.emod_eq_of_lt (by omega) hlt] at e2
    omega
  · have hN' : rb.head + 1 = N := by omega
    rw [hN', Int.emod_self] at e2
    omega

theorem rb_run_len_buffer (calls : List Call) :
    ∀ rb : ring, rb_run_len BUFFER_LENGTH rb calls = rb_run rb calls := by
  induction calls with
  | nil => intro rb; rfl
  | cons c cs ih =>
    intro rb
    cases c with
    | enqueue v => exact ih _
    | dequeue => exact ih _

/-! ## The claim about the buffer length -/

/-- C16 fails for buffer length 1.  With `BUFFER_LENGTH` replaced by 1, one
`rb_enqueue` on the ring returned by `rb_create` succeeds and leaves
`tail = head = 0`, a state in which `rb_isfull` and `rb_isempty` both report
true. -/
theorem rb_length_one_ambiguous :
    rb_create (some [0]) = some ⟨0, 1, [0]⟩ ∧
    (rb_enqueue_len 1 ⟨0, 1, [0]⟩ 5).1 = -1 ∧
    rb_run_len 1 ⟨0, 1, [0]⟩ [Call.enqueue 5] = ⟨0, 0, [5]⟩ ∧
    rb_isfull (rb_run_len 1 ⟨0, 1, [0]⟩ [Call.enqueue 5]) = -1 ∧
    rb_isempty_len 1 (rb_run_len 1 ⟨0, 1, [0]⟩ [Call.enqueue 5]) = -1 := by
  decide

/-- C16, amended.  Full and empty are unambiguous for every buffer length
`N ≥ 2`, that is for every usable capacity `N - 1 ≥ 1`: for the ring of
`ring.h` with `BUFFER_LENGTH` replaced by `N`, in every state reached from
`rb_create` by `rb_enqueue` and `rb_dequeue`, `rb_isfull` and `rb_isempty` do
not both report true.  With `N = BUFFER_LENGTH` these are the functions of the
code. -/
theorem rb_full_empty_unambiguous (N : Int) (hN : 2 ≤ N) (block : Option (List Int))
    (rb : ring) (calls : List Call) (hcreate : rb_create block = some rb) :
    ¬ (rb_isfull (rb_run_len N rb calls) = -1 ∧
        rb_isempty_len N (rb_run_len N rb calls) = -1) ∧
    rb_run_len BUFFER_LENGTH rb calls = rb_run rb calls ∧
    (∀ (s : ring) (v : Int), rb_isempty_len BUFFER_LENGTH s = rb_isempty s ∧
      rb_enqueue_len BUFFER_LENGTH s v = rb_enqueue s v ∧
      rb_dequeue_len BUFFER_LENGTH s = rb_dequeue s) := by
  have hin : rb_inrange_len N rb := by
    cases block with
    | none => simp [rb_create] at hcreate
    | some cells =>
      simp only [rb_create, Option.some.injEq] at hcreate
      subst hcreate
      exact ⟨Int.le_refl 0, by show (0 : Int) < N; omega, by show (0 : Int) ≤ 1; decide,
        by show (1 : Int) < N; omega⟩
  exact ⟨rb_not_full_and_empty N hN _ (rb_inrange_len_run N (by omega) calls rb hin),
    rb_run_len_buffer calls rb, fun _ _ => ⟨rfl, rfl, rfl⟩⟩

/-- Witness of C16 amended: buffer length 2 (usable capacity 1), one push. -/
theorem rb_full_empty_unambiguous_witness :
    rb_create (some [0, 0]) = some ⟨0, 1, [0, 0]⟩ ∧
    ¬ (rb_isfull (rb_run_len 2 ⟨0, 1, [0, 0]⟩ [Call.enqueue 5]) = -1 ∧
        rb_isempty_len 2 (rb_run_len 2 ⟨0, 1, [0, 0]⟩ [Call.enqueue 5]) = -1) :=
  ⟨rfl, (rb_full_empty_unambiguous 2 (by decide) (some [0, 0]) ⟨0, 1, [0, 0]⟩
    [Call.enqueue 5] rfl).1⟩

/-! ## Index safety and the empty code -/

theorem rb_length_run (calls : List Call) :
    ∀ rb : ring, (rb_run rb calls).data.length = rb.data.length := by
  induction calls with
  | nil => intro rb; rfl
  | cons c cs ih =>
    intro rb
    simp only [rb_run]
    rw [ih, rb_length_call]

/-- C22. Index safety of the ring: in every state reached from `rb_create` by
`rb_enqueue` and `rb_dequeue`, `0 ≤ head < 256` and `0 ≤ tail < 256`, the array
keeps its 256 slots, and the accesses are within its bounds: the index
`(tail - 1 + 256) % 256` written by `rb_enqueue` and the index `head` read by
`rb_dequeue` lie in `[0, 256)`, so the write stores the value in that slot and
the read returns the content of that slot. -/
theorem rb_index_safety (block : Option (List Int)) (rb : ring) (calls : List Call)
    (hcreate : rb_create block = some rb) (hlen : rb.data.length = 256) :
    (0 ≤ (rb_run rb calls).head ∧ (rb_run rb calls).head < 256) ∧
    (0 ≤ (rb_run rb calls).tail ∧ (rb_run rb calls).tail < 256) ∧
    (rb_run rb calls).data.length = 256 ∧
    rb_enqueue_index (rb_run rb calls) = ((rb_run rb calls).tail - 1 + 256) % 256 ∧
    (0 ≤ rb_enqueue_index (rb_run rb calls) ∧ rb_enqueue_index (rb_run rb calls) < 256 ∧
      (rb_enqueue_index (rb_run rb calls)).toNat < (rb_run rb calls).data.length) ∧
    (rb_run rb calls).head.toNat < (rb_run rb calls).data.length ∧
    (∀ v : Int, rb_isfull (rb_run rb calls) = 0 →
      (rb_enqueue (rb_run rb calls) v).2.data
          = (rb_run rb calls).data.set (rb_enqueue_index (rb_run rb calls)).toNat v ∧
        (rb_enqueue (rb_run rb calls) v).2.data[(rb_enqueue_index (rb_run rb calls)).toNat]?
          = some v) ∧
    (rb_isempty (rb_run rb calls) = 0 →
      (rb_run rb calls).data[(rb_run rb calls).head.toNat]?
        = some (rb_dequeue (rb_run rb calls)).1) := by
  have hin := rb_inrange_run calls rb (rb_create_inrange block rb hcreate).1
  have hl : (rb_run rb calls).data.length = 256 := by rw [rb_length_run, hlen]
  generalize rb_run rb calls = s at hin hl
  obtain ⟨h1, h2, h3, h4⟩ := hin
  simp only [BUFFER_LENGTH] at h2 h4
  have hidx : rb_enqueue_index s = (s.tail - 1 + 256) % 256 := by
    simp only [rb_enqueue_index, BUFFER_LENGTH]
    exact tmod_buffer _ (by omega)
  have hi0 : 0 ≤ rb_enqueue_index s := by rw [hidx]; omega
  have hi1 : rb_enqueue_index s < 256 := by rw [hidx]; omega
  have hi2 : (rb_enqueue_index s).toNat < s.data.length := by omega
  have hh : s.head.toNat < s.data.length := by omega
  refine ⟨⟨h1, h2⟩, ⟨h3, h4⟩, hl, hidx, ⟨hi0, hi1, hi2⟩, hh, ?_, ?_⟩
  · intro v hnf
    rw [rb_enqueue_of_not_full s v hnf]
    refine ⟨by simp [arr_set, hi0], ?_⟩
    simp [arr_set, hi0, List.getElem?_set, hi2]
  · intro hne
    rw [rb_dequeue_of_not_empty s hne]
    simp [arr_get, h1, List.getD_eq_getElem?_getD, List.getElem?_eq_getElem hh]

/-- Witness of C22: a fresh ring of 256 zeroed slots, a push and a pop. -/
theorem rb_index_safety_witness :
    rb_create (some (List.replicate 256 0)) = some ⟨0, 1, List.replicate 256 0⟩ ∧
    (0 ≤ rb_enqueue_index (rb_run ⟨0, 1, List.replicate 256 0⟩ [Call.enqueue 4, Call.dequeue]) ∧
      rb_enqueue_index (rb_run ⟨0, 1, List.replicate 256 0⟩ [Call.enqueue 4, Call.dequeue])
        < 256 ∧
      (rb_enqueue_index
          (rb_run ⟨0, 1, List.replicate 256 0⟩ [Call.enqueue 4, Call.dequeue])).toNat
        < (rb_run ⟨0, 1, List.replicate 256 0⟩ [Call.enqueue 4, Call.dequeue]).data.length) :=
  ⟨rfl, (rb_index_safety (some (List.replicate 256 0)) ⟨0, 1, List.replicate 256 0⟩
    [Call.enqueue 4, Call.dequeue] rfl (List.length_replicate _ _)).2.2.2.2.1⟩

theorem rb_contents_nonneg_run (calls : List Call) :
    ∀ rb : ring, rb_inrange rb → rb.data.length = 256 →
      (∀ x ∈ rb_contents rb, 0 ≤ x) → (∀ v, Call.enqueue v ∈ calls → 0 ≤ v) →
      ∀ x ∈ rb_contents (rb_run rb calls), 0 ≤ x := by
  induction calls with
  | nil => intro rb _ _ hstored _; exact hstored
  | cons c cs ih =>
    intro rb h hlen hstored hval
    have hval' : ∀ v, Call.enqueue v ∈ cs → 0 ≤ v :=
      fun v hv => hval v (List.mem_cons_of_mem _ hv)
    have ih1 := ih _ (rb_inrange_call rb c h) ((rb_length_call rb c).trans hlen)
    simp only [rb_run]
    refine ih1 ?_ hval'
    cases c with
    | enqueue v =>
      rcases rb_isfull_cases rb with hf | hf
      · simp only [rb_call, rb_enqueue_of_full rb v hf]
        exact hstored
      · simp only [rb_call]
        rw [rb_contents_enqueue rb v h hlen hf]
        intro x hx
        rcases List.mem_append.1 hx with hx | hx
        · exact hstored x hx
        · simp only [List.mem_singleton] at hx
          rw [hx]
          exact hval v (List.mem_cons_self _ _)
    | dequeue =>
      rcases rb_isempty_cases rb with he | he
      · simp only [rb_call, rb_dequeue_of_empty rb he]
        exact hstored
      · simp only [rb_call]
        intro x hx
        exact hstored x (by
          rw [rb_contents_dequeue rb h he]
          exact List.mem_cons_of_mem _ hx)

theorem rb_dequeue_sentinel (block : Option (List Int)) (rb : ring) (calls : List Call)
    (hcreate : rb_create block = some rb) (hlen : rb.data.length = 256)
    (hval : ∀ v, Call.enqueue v ∈ calls → 0 ≤ v) :
    ((rb_dequeue (rb_run rb calls)).1 = -1 ↔ rb_isempty (rb_run rb calls) = -1) ∧
    (rb_isempty (rb_run rb calls) = 0 → 0 ≤ (rb_dequeue (rb_run rb calls)).1) := by
  have hin0 := (rb_create_inrange block rb hcreate).1
  have hnil := rb_contents_create block rb hcreate
  have hstored := rb_contents_nonneg_run calls rb hin0 hlen (by simp [hnil]) hval
  have hin := rb_inrange_run calls rb hin0
  generalize rb_run rb calls = s at hstored hin
  have hpos : rb_isempty s = 0 → 0 ≤ (rb_dequeue s).1 := by
    intro he
    exact hstored _ (by rw [rb_contents_dequeue s hin he]; exact List.mem_cons_self _ _)
  refine ⟨⟨fun hret => ?_, fun he => by rw [rb_dequeue_of_empty s he]⟩, hpos⟩
  rcases rb_isempty_cases s with he | he
  · exact he
  · have := hpos he
    omega

/-! ## The four ways a pass of the accept loop can go -/

theorem server_pass_cases (b : Build) (E : Errno) (os : PassScript) (st : Server) :
    (NET_SOCKET_OK (net_accept_nonblocking b E os.accept st.kernel).1 = false ∧
      (_server_tcp_loop_body b E os st).1 ≠ Ctl.waiting ∧
      (_server_tcp_loop_body b E os st).2.rb = st.rb ∧
      (_server_tcp_loop_body b E os st).2.pushed = st.pushed ∧
      (_server_tcp_loop_body b E os st).2.kernel
        = (net_accept_nonblocking b E os.accept st.kernel).2) ∨
    (NET_SOCKET_OK (net_accept_nonblocking b E os.accept st.kernel).1 = true ∧
      (net_socket_make_reuseable_unix (net_accept_nonblocking b E os.accept st.kernel).2
        os.setsockopt).1 < 0 ∧
      (_server_tcp_loop_body b E os st).1 = Ctl.next ∧
      (_server_tcp_loop_body b E os st).2.rb = st.rb ∧
      (_server_tcp_loop_body b E os st).2.pushed = st.pushed ∧
      (_server_tcp_loop_body b E os st).2.kernel.closed
        = (net_accept_nonblocking b E os.accept st.kernel).2.closed
          ++ [(net_accept_nonblocking b E os.accept st.kernel).1] ∧
      (_server_tcp_loop_body b E os st).2.kernel.created
        = (net_accept_nonblocking b E os.accept st.kernel).2.created) ∨
    (NET_SOCKET_OK (net_accept_nonblocking b E os.accept st.kernel).1 = true ∧
      ¬ (net_socket_make_reuseable_unix (net_accept_nonblocking b E os.accept st.kernel).2
        os.setsockopt).1 < 0 ∧
      push_loop st.rb (net_accept_nonblocking b E os.accept st.kernel).1 os.wakes = none ∧
      (_server_tcp_loop_body b E os st).1 = Ctl.waiting ∧
      (_server_tcp_loop_body b E os st).2.rb = st.rb ∧
      (_server_tcp_loop_body b E os st).2.pushed = st.pushed ∧
      (_server_tcp_loop_body b E os st).2.kernel.closed
        = (net_accept_nonblocking b E os.accept st.kernel).2.closed ∧
      (_server_tcp_loop_body b E os st).2.kernel.created
        = (net_accept_nonblocking b E os.accept st.kernel).2.created) ∨
    (NET_SOCKET_OK (net_accept_nonblocking b E os.accept st.kernel).1 = true ∧
      (∃ done, push_loop st.rb (net_accept_nonblocking b E os.accept st.kernel).1 os.wakes
          = some done ∧ (_server_tcp_loop_body b E os st).2.rb = done.1) ∧
      (_server_tcp_loop_body b E os st).1 = Ctl.next ∧
      (_server_tcp_loop_body b E os st).2.pushed
        = st.pushed ++ [(net_accept_nonblocking b E os.accept st.kernel).1] ∧
      (_server_tcp_loop_body b E os st).2.kernel.closed
        = (net_accept_nonblocking b E os.accept st.kernel).2.closed ∧
      (_server_tcp_loop_body b E os st).2.kernel.created
        = (net_accept_nonblocking b E os.accept st.kernel).2.created) := by
  unfold _server_tcp_loop_body
  generalize net_accept_nonblocking b E os.accept st.kernel = a
  have hsame := make_reuseable_same a.2 os.setsockopt
  by_cases hok : NET_SOCKET_OK a.1 = true
  · right
    simp only [hok, Bool.not_true, Bool.false_eq_true, if_false]
    by_cases hr : (net_socket_make_reuseable_unix a.2 os.setsockopt).1 < 0
    · left
      have hclose := net_close_effect (net_socket_make_reuseable_unix a.2 os.setsockopt).2 a.1
        os.close
      simp only [hr, if_true, net_socket_close]
      refine ⟨trivial, trivial, trivial, trivial, trivial, ?_, ?_⟩
      · rw [hclose.2.1, hsame.2.1]
      · rw [hclose.1, hsame.1]
    · right
      simp only [hr, if_false]
      cases hp : push_loop st.rb a.1 os.wakes with
      | none => exact Or.inl ⟨trivial, not_false, rfl, rfl, rfl, rfl, hsame.2.1, hsame.1⟩
      | some done =>
        exact Or.inr ⟨trivial, ⟨done, rfl, rfl⟩, rfl, rfl, hsame.2.1, hsame.1⟩
  · left
    have hok' : NET_SOCKET_OK a.1 = false := by simpa using hok
    simp only [hok', Bool.not_false, if_true]
    by_cases h1 : NET_SOCKET_ERRNO_IS_ACCEPT_EAGAIN E a.2.errno = true
    · simp [h1]
    · have h1' : NET_SOCKET_ERRNO_IS_ACCEPT_EAGAIN E a.2.errno = false := by simpa using h1
      by_cases h2 : NET_SOCKET_ERRNO_IS_RESOURCE_LIMIT E a.2.errno = true
      · simp [h1', h2]
      · have h2' : NET_SOCKET_ERRNO_IS_RESOURCE_LIMIT E a.2.errno = false := by simpa using h2
        simp [h1', h2']

/-! ## The claims about index safety, the empty code and handle conservation -/

/-- C23. The empty code of `rb_dequeue` never hides a real handle.  On a ring
returned by `rb_create`, if every value enqueued is non-negative then in every
reachable state `rb_dequeue` returns `-1` iff the ring is empty.  Hence, when
the rings the worker finds at its wake-ups are such states, every `rb_dequeue`
of its retry loop `while (client_fd == -1)` that returned `-1` was made on an
empty ring and removed nothing, and the value the loop ends with is a
non-negative handle.  The acceptor only ever enqueues a descriptor that passed
`NET_SOCKET_OK`. -/
theorem rb_sentinel_never_hides_handle (block : Option (List Int)) (rb : ring)
    (hcreate : rb_create block = some rb) (hlen : rb.data.length = 256) :
    (∀ calls : List Call, (∀ v, Call.enqueue v ∈ calls → 0 ≤ v) →
      ((rb_dequeue (rb_run rb calls)).1 = -1 ↔ rb_isempty (rb_run rb calls) = -1)) ∧
    (∀ (start : ring) (wakes : List ring) (got : Int × ring × Nat),
      (∀ u ∈ start :: wakes,
        ∃ calls : List Call, (∀ v, Call.enqueue v ∈ calls → 0 ≤ v) ∧ u = rb_run rb calls) →
      pop_loop start wakes = some got →
        0 ≤ got.1 ∧
        ∀ (i : Nat) (u : ring), i < got.2.2 → (start :: wakes)[i]? = some u →
          rb_isempty u = -1 ∧ rb_dequeue u = (-1, u)) ∧
    (∀ (b : Build) (E : Errno) (os : PassScript) (st : Server),
      ((_server_tcp_loop_body b E os st).2.pushed = st.pushed ∧
        (_server_tcp_loop_body b E os st).2.rb = st.rb) ∨
      (NET_SOCKET_OK (net_accept_nonblocking b E os.accept st.kernel).1 = true ∧
        0 ≤ (net_accept_nonblocking b E os.accept st.kernel).1 ∧
        (_server_tcp_loop_body b E os st).2.pushed
          = st.pushed ++ [(net_accept_nonblocking b E os.accept st.kernel).1] ∧
        ∃ s, rb_enqueue s (net_accept_nonblocking b E os.accept st.kernel).1
          = (-1, (_server_tcp_loop_body b E os st).2.rb))) := by
  refine ⟨fun calls hval => (rb_dequeue_sentinel block rb calls hcreate hlen hval).1, ?_, ?_⟩
  · intro start wakes got hreach hpop
    obtain ⟨s, hs, hne, hret, e1, _, hprev⟩ := pop_loop_done wakes start got hpop
    constructor
    · obtain ⟨calls, hval, hu⟩ := hreach s (List.getElem?_mem hs)
      have := (rb_dequeue_sentinel block rb calls hcreate hlen hval).2
      rw [← hu] at this
      rw [e1]
      exact this hne
    · intro i u hi hu
      obtain ⟨calls, hval, hcalls⟩ := hreach u (List.getElem?_mem hu)
      have hiff := (rb_dequeue_sentinel block rb calls hcreate hlen hval).1
      rw [← hcalls] at hiff
      have hemp := hiff.1 (hprev i u hi hu)
      exact ⟨hemp, rb_dequeue_of_empty u hemp⟩
  · intro b E os st
    rcases server_pass_cases b E os st with
      ⟨_, _, h1, h2, _⟩ | ⟨_, _, _, h1, h2, _⟩ | ⟨_, _, _, _, h1, h2, _⟩ |
        ⟨hok, ⟨done, hd, hrb⟩, _, h2, _⟩
    · exact Or.inl ⟨h2, h1⟩
    · exact Or.inl ⟨h2, h1⟩
    · exact Or.inl ⟨h2, h1⟩
    · right
      obtain ⟨s, _, _, he⟩ := push_loop_done _ os.wakes st.rb done.1 done.2 hd
      refine ⟨hok, by simpa [NET_SOCKET_OK] using hok, h2, s, ?_⟩
      rw [hrb]
      exact he

/-- Witness of C23: descriptor 0 is pushed and popped on a fresh ring; the pop
returns `0`, not `-1`, and the next pop finds the ring empty. -/
theorem rb_sentinel_never_hides_handle_witness :
    rb_create (some (List.replicate 256 (-1))) = some ⟨0, 1, List.replicate 256 (-1)⟩ ∧
    ((rb_dequeue (rb_run ⟨0, 1, List.replicate 256 (-1)⟩ [Call.enqueue 0])).1 = -1 ↔
      rb_isempty (rb_run ⟨0, 1, List.replicate 256 (-1)⟩ [Call.enqueue 0]) = -1) ∧
    ((rb_dequeue (rb_run ⟨0, 1, List.replicate 256 (-1)⟩ [Call.enqueue 0, Call.dequeue])).1 = -1 ↔
      rb_isempty (rb_run ⟨0, 1, List.replicate 256 (-1)⟩ [Call.enqueue 0, Call.dequeue]) = -1) :=
  ⟨rfl,
    (rb_sentinel_never_hides_handle (some (List.replicate 256 (-1)))
      ⟨0, 1, List.replicate 256 (-1)⟩ rfl (List.length_replicate _ _)).1
      [Call.enqueue 0] (by simp),
    (rb_sentinel_never_hides_handle (some (List.replicate 256 (-1)))
      ⟨0, 1, List.replicate 256 (-1)⟩ rfl (List.length_replicate _ _)).1
      [Call.enqueue 0, Call.dequeue] (by simp)⟩

/-- C21. Handle conservation in the acceptor.  In every pass of the accept loop
in which `net_accept_nonblocking` returns a valid descriptor and which comes to
its end, the pass either enqueued that descriptor exactly once (one successful
`rb_enqueue`, every earlier attempt having met a full ring and changed nothing)
and closed nothing, or closed it exactly once and enqueued nothing, leaving the
ring as it was; never both, never neither.  The pass does come to its end when
the hardening fails or when one of the rings the push finds is not full;
until then the thread is still waiting to enqueue the descriptor, which it has
not closed.  When `net_accept_nonblocking` returns no valid descriptor,
nothing is enqueued and a socket it had obtained from `accept` has been closed
once. -/
theorem acceptor_handle_conservation (b : Build) (E : Errno) (os : PassScript)
    (st : Server) :
    (NET_SOCKET_OK (net_accept_nonblocking b E os.accept st.kernel).1 = true →
      (_server_tcp_loop_body b E os st).1 ≠ Ctl.waiting →
      ∃ closed_now pushed_now : List Int,
        (_server_tcp_loop_body b E os st).2.kernel.closed = st.kernel.closed ++ closed_now ∧
        (_server_tcp_loop_body b E os st).2.pushed = st.pushed ++ pushed_now ∧
        ((pushed_now = [(net_accept_nonblocking b E os.accept st.kernel).1] ∧
            closed_now = [] ∧
            ∃ (n : Nat) (s : ring), (st.rb :: os.wakes)[n]? = some s ∧
              rb_enqueue s (net_accept_nonblocking b E os.accept st.kernel).1
                = (-1, (_server_tcp_loop_body b E os st).2.rb) ∧
              ∀ (i : Nat) (u : ring), i < n → (st.rb :: os.wakes)[i]? = some u →
                rb_enqueue u (net_accept_nonblocking b E os.accept st.kernel).1 = (0, u)) ∨
          (pushed_now = [] ∧
            closed_now = [(net_accept_nonblocking b E os.accept st.kernel).1] ∧
            (_server_tcp_loop_body b E os st).2.rb = st.rb)) ∧
        pushed_now.count (net_accept_nonblocking b E os.accept st.kernel).1
          + closed_now.count (net_accept_nonblocking b E os.accept st.kernel).1 = 1) ∧
    (NET_SOCKET_OK (net_accept_nonblocking b E os.accept st.kernel).1 = true →
      ((net_socket_make_reuseable_unix (net_accept_nonblocking b E os.accept st.kernel).2
          os.setsockopt).1 < 0 ∨ ∃ s ∈ st.rb :: os.wakes, rb_isfull s = 0) →
      (_server_tcp_loop_body b E os st).1 = Ctl.next) ∧
    ((_server_tcp_loop_body b E os st).1 = Ctl.waiting →
      (_server_tcp_loop_body b E os st).2.kernel.closed = st.kernel.closed ∧
      (_server_tcp_loop_body b E os st).2.pushed = st.pushed ∧
      (_server_tcp_loop_body b E os st).2.rb = st.rb) ∧
    (NET_SOCKET_OK (net_accept_nonblocking b E os.accept st.kernel).1 = false →
      (_server_tcp_loop_body b E os st).2.pushed = st.pushed ∧
      (_server_tcp_loop_body b E os st).2.rb = st.rb ∧
      ∃ got : List Int, got.length ≤ 1 ∧
        (_server_tcp_loop_body b E os st).2.kernel.created = st.kernel.created ++ got ∧
        (_server_tcp_loop_body b E os st).2.kernel.closed = st.kernel.closed ++ got) := by
  have hcases := server_pass_cases b E os st
  have hacc := net_accept_nonblocking_result b E os.accept st.kernel
  generalize _server_tcp_loop_body b E os st = r at hcases
  generalize net_accept_nonblocking b E os.accept st.kernel = a at hcases hacc
  have hclosed_ok : NET_SOCKET_OK a.1 = true → a.2.closed = st.kernel.closed := by
    intro hok
    simp only [NET_SOCKET_OK, decide_eq_true_eq] at hok
    rcases hacc with ⟨_, _, h2, _⟩ | ⟨h0, _⟩ | ⟨h0, _⟩
    · exact h2
    · omega
    · omega
  refine ⟨?_, ?_, ?_, ?_⟩
  · intro hok hnw
    have hcl := hclosed_ok hok
    rcases hcases with ⟨hbad, _⟩ | ⟨_, _, _, h1, h2, h3, _⟩ | ⟨_, _, _, hw, _⟩ |
      ⟨_, ⟨done, hd, hrb⟩, _, h2, h3, _⟩
    · rw [hok] at hbad
      exact absurd hbad (by decide)
    · refine ⟨[a.1], [], by rw [h3, hcl], by rw [h2]; simp, Or.inr ⟨rfl, rfl, h1⟩, by simp⟩
    · exact absurd hw hnw
    · obtain ⟨s, hs, _, he⟩ := push_loop_done a.1 os.wakes st.rb done.1 done.2 hd
      have hprev := push_loop_earlier_full a.1 os.wakes st.rb done hd
      refine ⟨[], [a.1], by rw [h3, hcl]; simp, h2, Or.inl ⟨rfl, rfl, done.2, s, hs, ?_, ?_⟩,
        by simp⟩
      · rw [hrb]; exact he
      · intro i u hi hu
        exact (hprev i u hi hu).2
  · intro hok hdone
    rcases hcases with ⟨hbad, _⟩ | ⟨_, _, hn, _⟩ | ⟨_, hnr, hnone, _⟩ |
      ⟨_, _, hn, _⟩
    · rw [hok] at hbad
      exact absurd hbad (by decide)
    · exact hn
    · rcases hdone with hr | hroom
      · exact absurd hr hnr
      · obtain ⟨done, hd⟩ := push_loop_completes a.1 os.wakes st.rb hroom
        rw [hd] at hnone
        exact absurd hnone (by simp)
    · exact hn
  · intro hw
    rcases hcases with ⟨_, hnw, _⟩ | ⟨_, _, hn, _⟩ | ⟨hok, _, _, _, h1, h2, h3, _⟩ |
      ⟨_, _, hn, _⟩
    · exact absurd hw hnw
    · rw [hn] at hw
      exact absurd hw (by decide)
    · exact ⟨by rw [h3, hclosed_ok hok], h2, h1⟩
    · rw [hn] at hw
      exact absurd hw (by decide)
  · intro hbad
    rcases hcases with ⟨_, _, h1, h2, h3⟩ | ⟨hok, _⟩ | ⟨hok, _⟩ | ⟨hok, _⟩
    · refine ⟨h2, h1, ?_⟩
      rw [h3]
      have hneg : a.1 < 0 := by
        simp only [NET_SOCKET_OK, decide_eq_false_iff_not] at hbad
        omega
      rcases hacc with ⟨h0, _⟩ | ⟨_, c1, c2, _⟩ | ⟨_, t, _, c1, c2, _⟩
      · omega
      · exact ⟨[], by simp, by rw [c1]; simp, by rw [c2]; simp⟩
      · exact ⟨[t], by simp, c1, c2⟩
    · rw [hbad] at hok
      exact absurd hok (by decide)
    · rw [hbad] at hok
      exact absurd hok (by decide)
    · rw [hbad] at hok
      exact absurd hok (by decide)

/-- Witness of C21 on the Linux table: descriptor 7 is accepted; with a
successful hardening and room in the ring it is enqueued and not closed, with a
failed hardening it is closed and not enqueued. -/
theorem acceptor_handle_conservation_witness :
    (∃ closed_now pushed_now : List Int,
      (_server_tcp_loop_body ⟨true, true, true⟩ linux_errno
          ⟨⟨⟨7, 0⟩, ⟨-1, 0⟩, ⟨0, 0⟩, ⟨2, 0⟩, ⟨0, 0⟩, ⟨0, 0⟩⟩, ⟨0, 0⟩, ⟨0, 0⟩, []⟩
          ⟨Kernel.start 0, ⟨0, 1, List.replicate 256 0⟩, []⟩).2.kernel.closed
        = (Kernel.start 0).closed ++ closed_now ∧
      (_server_tcp_loop_body ⟨true, true, true⟩ linux_errno
          ⟨⟨⟨7, 0⟩, ⟨-1, 0⟩, ⟨0, 0⟩, ⟨2, 0⟩, ⟨0, 0⟩, ⟨0, 0⟩⟩, ⟨0, 0⟩, ⟨0, 0⟩, []⟩
          ⟨Kernel.start 0, ⟨0, 1, List.replicate 256 0⟩, []⟩).2.pushed
        = [] ++ pushed_now ∧
      pushed_now.count 7 + closed_now.count 7 = 1) ∧
    (∃ closed_now pushed_now : List Int,
      (_server_tcp_loop_body ⟨true, true, true⟩ linux_errno
          ⟨⟨⟨7, 0⟩, ⟨-1, 0⟩, ⟨0, 0⟩, ⟨2, 0⟩, ⟨0, 0⟩, ⟨0, 0⟩⟩, ⟨-1, 22⟩, ⟨0, 0⟩, []⟩
          ⟨Kernel.start 0, ⟨0, 1, List.replicate 256 0⟩, []⟩).2.kernel.closed
        = (Kernel.start 0).closed ++ closed_now ∧
      (_server_tcp_loop_body ⟨true, true, true⟩ linux_errno
          ⟨⟨⟨7, 0⟩, ⟨-1, 0⟩, ⟨0, 0⟩, ⟨2, 0⟩, ⟨0, 0⟩, ⟨0, 0⟩⟩, ⟨-1, 22⟩, ⟨0, 0⟩, []⟩
          ⟨Kernel.start 0, ⟨0, 1, List.replicate 256 0⟩, []⟩).2.pushed
        = [] ++ pushed_now ∧
      pushed_now.count 7 + closed_now.count 7 = 1) :=
  ⟨match (acceptor_handle_conservation ⟨true, true, true⟩ linux_errno
        ⟨⟨⟨7, 0⟩, ⟨-1, 0⟩, ⟨0, 0⟩, ⟨2, 0⟩, ⟨0, 0⟩, ⟨0, 0⟩⟩, ⟨0, 0⟩, ⟨0, 0⟩, []⟩
        ⟨Kernel.start 0, ⟨0, 1, List.replicate 256 0⟩, []⟩).1 (by decide) (by decide) with
    | ⟨cl, pu, h1, h2, _, h3⟩ => ⟨cl, pu, h1, h2, h3⟩,
    match (acceptor_handle_conservation ⟨true, true, true⟩ linux_errno
        ⟨⟨⟨7, 0⟩, ⟨-1, 0⟩, ⟨0, 0⟩, ⟨2, 0⟩, ⟨0, 0⟩, ⟨0, 0⟩⟩, ⟨-1, 22⟩, ⟨0, 0⟩, []⟩
        ⟨Kernel.start 0, ⟨0, 1, List.replicate 256 0⟩, []⟩).1 (by decide) (by decide) with
    | ⟨cl, pu, h1, h2, _, h3⟩ => ⟨cl, pu, h1, h2, h3⟩⟩
